import Mathlib

/-!
Verification of the Octodon worker against its specification.

The definitions below are a shallow embedding of the TypeScript sources:

* `src/index.ts`   — the KV-backed worker; `handleAccountStatuses` (lines 71-111)
  is the cursor-based pagination engine.
* `src/worker.ts`  — the R2-backed worker; `GET /oauth/authorize` (lines 65-91).
* the GitHub OAuth bridge worker — `GET /oauth/authorize`, the
  `GET /oauth/github/callback` handler and `POST /api/v1/statuses`.
* the crypto module — `signState` / `verifyState`.

JavaScript primitives that the code relies on (`Array.prototype.slice`,
`parseInt`, `URLSearchParams.get` falsiness, `String.prototype.includes`,
`btoa`/`atob`, `JSON.stringify`/`JSON.parse`, SHA-256/HMAC) are modelled
explicitly; machine integers are `Int`/`Nat` with explicit `% 2 ^ 32` where
overflow matters.
-/

namespace Octodon

/-! ## JavaScript primitive models -/

/-- Models the truthiness test applied to `searchParams.get(k)` results:
`null` (here `none`) and the empty string are falsy; any other string is
truthy.  `truthy p = some s` exactly when the branch guarded by `if (p)`
runs with value `s`. -/
def truthy : Option String → Option String
  | some s => if s = "" then none else some s
  | none => none

/-- Models `x || d` for `x : string | null` (used as
`searchParams.get('limit') || '20'`): falsy (`null` or `""`) selects the
default. -/
def jsGetOrDefault (p : Option String) (d : String) : String :=
  match truthy p with
  | some s => s
  | none => d

/-- Characters treated as whitespace by JavaScript `parseInt`
(the common ASCII ones; the sources only ever pass ASCII). -/
def isJsSpace (c : Char) : Bool :=
  c == ' ' || c == '\t' || c == '\n' || c == '\r' || c == '\x0b' || c == '\x0c'

/-- Numeric value of a decimal digit, if `c` is one. -/
def decDigitVal? (c : Char) : Option Nat :=
  if '0' ≤ c ∧ c ≤ '9' then some (c.toNat - '0'.toNat) else none

/-- Numeric value of a hexadecimal digit, if `c` is one. -/
def hexDigitVal? (c : Char) : Option Nat :=
  if '0' ≤ c ∧ c ≤ '9' then some (c.toNat - '0'.toNat)
  else if 'a' ≤ c ∧ c ≤ 'f' then some (c.toNat - 'a'.toNat + 10)
  else if 'A' ≤ c ∧ c ≤ 'F' then some (c.toNat - 'A'.toNat + 10)
  else none

/-- Accumulate the longest leading run of digits of the given radix,
returning the accumulated value (if at least one digit was seen) and the
rest of the input. -/
def takeDigits (dv : Char → Option Nat) (radix : Nat) :
    List Char → Option Nat → Option Nat × List Char
  | [], acc => (acc, [])
  | c :: cs, acc =>
    match dv c with
    | some d => takeDigits dv radix cs (some ((acc.getD 0) * radix + d))
    | none => (acc, c :: cs)

/-- Model of JavaScript `parseInt(s)` (no explicit radix): skip leading
whitespace, optional sign, then either a `0x`/`0X` hexadecimal literal or a
run of decimal digits; `none` models `NaN` (no digits found).  Values are
exact integers (the worker only ever receives small limits, far below any
float-precision issue). -/
def parseIntJS (s : String) : Option Int :=
  let cs := s.data.dropWhile (fun c => isJsSpace c)
  let signAndRest : Int × List Char :=
    match cs with
    | '-' :: rest => (-1, rest)
    | '+' :: rest => (1, rest)
    | rest => (1, rest)
  let sign := signAndRest.1
  let body := signAndRest.2
  let digits : Option Nat :=
    match body with
    | '0' :: x :: rest =>
      if x = 'x' ∨ x = 'X' then (takeDigits hexDigitVal? 16 rest none).1
      else (takeDigits decDigitVal? 10 body none).1
    | _ => (takeDigits decDigitVal? 10 body none).1
  digits.map (fun n => sign * (n : Int))

/-- Model of `Array.prototype.slice(0, e)` where `e` may be `NaN`
(`none`): per ECMA `ToIntegerOrInfinity`, `NaN` becomes `0`; a negative
`e` counts from the end of the array. -/
def jsSliceZeroTo (l : List α) (e : Option Int) : List α :=
  match e with
  | none => []
  | some n => if n < 0 then l.take ((l.length : Int) + n).toNat else l.take n.toNat

/-! ## Pagination engine — `handleAccountStatuses`, src/index.ts lines 71-111 -/

/-- One entry of the embedded `dist/index.json` status index.  The handler
only inspects `id`; `content` stands for the remaining fields of the
record. -/
structure StatusIndex where
  id : String
  content : String
deriving DecidableEq, Repr

/-- The four pagination query parameters, each `none` when absent from the
URL (`searchParams.get` returning `null`). -/
structure PageParams where
  limit : Option String
  max_id : Option String
  since_id : Option String
  min_id : Option String
deriving DecidableEq, Repr

/-- Lines 86-91: `if (maxId) { const i = statuses.findIndex(s => s.id === maxId);
if (i !== -1) statuses = statuses.slice(i + 1); }`. -/
def applyMaxIdFilter (statuses : List StatusIndex) (maxId : Option String) :
    List StatusIndex :=
  match truthy maxId with
  | some m =>
    match statuses.findIdx? (fun s => s.id = m) with
    | some i => statuses.drop (i + 1)
    | none => statuses
  | none => statuses

/-- Lines 93-98: `if (sinceId) { ... statuses = statuses.slice(0, i); }`. -/
def applySinceIdFilter (statuses : List StatusIndex) (sinceId : Option String) :
    List StatusIndex :=
  match truthy sinceId with
  | some m =>
    match statuses.findIdx? (fun s => s.id = m) with
    | some i => statuses.take i
    | none => statuses
  | none => statuses

/-- Lines 100-105: `if (minId) { ... statuses = statuses.slice(0, i).reverse(); }`. -/
def applyMinIdFilter (statuses : List StatusIndex) (minId : Option String) :
    List StatusIndex :=
  match truthy minId with
  | some m =>
    match statuses.findIdx? (fun s => s.id = m) with
    | some i => (statuses.take i).reverse
    | none => statuses
  | none => statuses

/-- The cursor-filtering part of the handler (lines 83-105): the three
filters run in sequence, each on the output of the previous one — the code
uses three independent `if` statements, not an `if`/`else if` chain. -/
def cursorFiltered (statuses : List StatusIndex) (p : PageParams) : List StatusIndex :=
  applyMinIdFilter (applySinceIdFilter (applyMaxIdFilter statuses p.max_id) p.since_id) p.min_id

/-- Line 78: `Math.min(parseInt(searchParams.get('limit') || '20'), 40)`.
`none` models `NaN` (non-numeric limit), which `Math.min` propagates. -/
def effectiveLimit (raw : Option String) : Option Int :=
  (parseIntJS (jsGetOrDefault raw "20")).map (fun n => min n 40)

/-- The pagination pipeline of `handleAccountStatuses` (lines 78-110):
cursor filters, then `statuses.slice(0, limit)`. -/
def handleAccountStatuses (statuses : List StatusIndex) (p : PageParams) :
    List StatusIndex :=
  jsSliceZeroTo (cursorFiltered statuses p) (effectiveLimit p.limit)

/-! ## Aliasing model of the handler (for the frame property)

The handler's local `statuses` variable initially aliases the module-level
embedded index (line 83); JavaScript `slice` allocates a fresh array while
`reverse` mutates its receiver in place.  We track which arrays a mutation
could reach. -/

/-- A reference to a JS array reachable by the handler: the module-level
embedded status index, or a request-local freshly allocated array. -/
inductive ArrRef
  | store
  | fresh (l : List StatusIndex)
deriving DecidableEq, Repr

/-- The one piece of cross-request state: the embedded status index. -/
structure Heap where
  store : List StatusIndex
deriving DecidableEq, Repr

/-- Read an array through a reference. -/
def readRef (h : Heap) : ArrRef → List StatusIndex
  | .store => h.store
  | .fresh l => l

/-- `Array.prototype.slice(b)` — allocates a fresh array, never writes the
receiver. -/
def refSliceFrom (h : Heap) (a : ArrRef) (b : Nat) : ArrRef :=
  .fresh ((readRef h a).drop b)

/-- `Array.prototype.slice(0, e)` for a non-negative index `e`. -/
def refSliceToIdx (h : Heap) (a : ArrRef) (e : Nat) : ArrRef :=
  .fresh ((readRef h a).take e)

/-- `Array.prototype.slice(0, e)` for the possibly-`NaN`/negative limit. -/
def refSliceZeroTo (h : Heap) (a : ArrRef) (e : Option Int) : ArrRef :=
  .fresh (jsSliceZeroTo (readRef h a) e)

/-- `Array.prototype.reverse` — reverses its receiver in place (a write to
whatever array the reference designates) and returns the receiver. -/
def refReverse (h : Heap) (a : ArrRef) : Heap × ArrRef :=
  match a with
  | .store => (⟨h.store.reverse⟩, .store)
  | .fresh l => (h, .fresh l.reverse)

/-- Transcription of `handleAccountStatuses` (src/index.ts lines 83-110)
against the aliasing model: returns the heap after the request together
with the served page.  Line 103 applies `reverse` to the result of
`slice(0, minIdIndex)`, so the receiver of the only mutating operation is
always a fresh array. -/
def handleAccountStatusesHeap (h : Heap) (p : PageParams) :
    Heap × List StatusIndex :=
  let s0 : ArrRef := ArrRef.store
  let s1 : ArrRef :=
    match truthy p.max_id with
    | some m =>
      match (readRef h s0).findIdx? (fun st => st.id = m) with
      | some i => refSliceFrom h s0 (i + 1)
      | none => s0
    | none => s0
  let s2 : ArrRef :=
    match truthy p.since_id with
    | some m =>
      match (readRef h s1).findIdx? (fun st => st.id = m) with
      | some i => refSliceToIdx h s1 i
      | none => s1
    | none => s1
  let hs3 : Heap × ArrRef :=
    match truthy p.min_id with
    | some m =>
      match (readRef h s2).findIdx? (fun st => st.id = m) with
      | some i => refReverse h (refSliceToIdx h s2 i)
      | none => (h, s2)
    | none => (h, s2)
  let s4 : ArrRef := refSliceZeroTo hs3.1 hs3.2 (effectiveLimit p.limit)
  (hs3.1, readRef hs3.1 s4)

/-- A whole sequence of timeline requests, threading the heap. -/
def runRequests (h : Heap) (ps : List PageParams) : Heap :=
  ps.foldl (fun h p => (handleAccountStatusesHeap h p).1) h

/-- A five-post timeline, newest first, ids 5 down to 1 (the shape used in
the specification's scenarios). -/
def fiveP : List StatusIndex :=
  [⟨"5", "P5"⟩, ⟨"4", "P4"⟩, ⟨"3", "P3"⟩, ⟨"2", "P2"⟩, ⟨"1", "P1"⟩]

/-- The request with no pagination parameters. -/
def pEmpty : PageParams := ⟨none, none, none, none⟩

/-! ## SHA-256, HMAC and encodings

Models of the Web Crypto primitives the workers call
(`crypto.subtle.digest('SHA-256', …)`, `crypto.subtle.sign/verify('HMAC', …)`),
of `TextEncoder`, `btoa`/`atob` and `encodeURIComponent`.  Bytes are `Nat`
values below 256; 32-bit words are `Nat` with explicit `% 2^32`. -/

/-- Truncate to a 32-bit word. -/
def w32 (n : Nat) : Nat := n % 4294967296

/-- 32-bit right rotation. -/
def rotr32 (n x : Nat) : Nat := w32 ((x >>> n) ||| (x <<< (32 - n)))

def shaCh (x y z : Nat) : Nat := (x &&& y) ^^^ ((x ^^^ 4294967295) &&& z)

def shaMaj (x y z : Nat) : Nat := (x &&& y) ^^^ (x &&& z) ^^^ (y &&& z)

def bigSigma0 (x : Nat) : Nat := rotr32 2 x ^^^ rotr32 13 x ^^^ rotr32 22 x

def bigSigma1 (x : Nat) : Nat := rotr32 6 x ^^^ rotr32 11 x ^^^ rotr32 25 x

def smallSigma0 (x : Nat) : Nat := rotr32 7 x ^^^ rotr32 18 x ^^^ (x >>> 3)

def smallSigma1 (x : Nat) : Nat := rotr32 17 x ^^^ rotr32 19 x ^^^ (x >>> 10)

/-- The 64 SHA-256 round constants. -/
def shaK : List Nat :=
  [1116352408, 1899447441, 3049323471, 3921009573, 961987163, 1508970993,
   2453635748, 2870763221, 3624381080, 310598401, 607225278, 1426881987,
   1925078388, 2162078206, 2614888103, 3248222580, 3835390401, 4022224774,
   264347078, 604807628, 770255983, 1249150122, 1555081692, 1996064986,
   2554220882, 2821834349, 2952996808, 3210313671, 3336571891, 3584528711,
   113926993, 338241895, 666307205, 773529912, 1294757372, 1396182291,
   1695183700, 1986661051, 2177026350, 2456956037, 2730485921, 2820302411,
   3259730800, 3345764771, 3516065817, 3600352804, 4094571909, 275423344,
   430227734, 506948616, 659060556, 883997877, 958139571, 1322822218,
   1537002063, 1747873779, 1955562222, 2024104815, 2227730452, 2361852424,
   2428436474, 2756734187, 3204031479, 3329325298]

/-- The SHA-256 initial hash value. -/
def shaH0 : List Nat :=
  [1779033703, 3144134277, 1013904242, 2773480762, 1359893119, 2600822924, 528734635, 1541459225]

/-- Group bytes into big-endian 32-bit words. -/
def bytesToWords : List Nat → List Nat
  | b0 :: b1 :: b2 :: b3 :: rest =>
    (((b0 * 256 + b1) * 256 + b2) * 256 + b3) :: bytesToWords rest
  | _ => []

/-- One message-schedule extension step. -/
def scheduleStep (ws : List Nat) : List Nat :=
  let n := ws.length
  ws ++ [w32 (smallSigma1 (ws.getD (n - 2) 0) + ws.getD (n - 7) 0 +
    smallSigma0 (ws.getD (n - 15) 0) + ws.getD (n - 16) 0)]

/-- Extend the 16-word schedule by the given number of words. -/
def buildSchedule (ws : List Nat) : Nat → List Nat
  | 0 => ws
  | k + 1 => buildSchedule (scheduleStep ws) k

/-- The eight SHA-256 working variables. -/
structure Sha256State where
  a : Nat
  b : Nat
  c : Nat
  d : Nat
  e : Nat
  f : Nat
  g : Nat
  hh : Nat
deriving Repr, DecidableEq

/-- One compression round. -/
def sha256Round (s : Sha256State) (k w : Nat) : Sha256State :=
  let t1 := w32 (s.hh + bigSigma1 s.e + shaCh s.e s.f s.g + k + w)
  let t2 := w32 (bigSigma0 s.a + shaMaj s.a s.b s.c)
  ⟨w32 (t1 + t2), s.a, s.b, s.c, w32 (s.d + t1), s.e, s.f, s.g⟩

/-- Compress one 64-byte block into the hash state. -/
def sha256Compress (hs : List Nat) (block : List Nat) : List Nat :=
  let ws := buildSchedule (bytesToWords block) 48
  let s0 : Sha256State := ⟨hs.getD 0 0, hs.getD 1 0, hs.getD 2 0, hs.getD 3 0,
    hs.getD 4 0, hs.getD 5 0, hs.getD 6 0, hs.getD 7 0⟩
  let sf := (shaK.zip ws).foldl (fun s kw => sha256Round s kw.1 kw.2) s0
  [w32 (hs.getD 0 0 + sf.a), w32 (hs.getD 1 0 + sf.b), w32 (hs.getD 2 0 + sf.c),
   w32 (hs.getD 3 0 + sf.d), w32 (hs.getD 4 0 + sf.e), w32 (hs.getD 5 0 + sf.f),
   w32 (hs.getD 6 0 + sf.g), w32 (hs.getD 7 0 + sf.hh)]

/-- The 8-byte big-endian encoding of a length field. -/
def lenBytes64 (n : Nat) : List Nat :=
  (List.range 8).map (fun i => (n >>> ((7 - i) * 8)) % 256)

/-- SHA-256 padding: `0x80`, zeros to 56 mod 64, then the bit length. -/
def sha256Pad (msg : List Nat) : List Nat :=
  msg ++ [128] ++ List.replicate ((119 - msg.length % 64) % 64) 0 ++
    lenBytes64 (msg.length * 8)

/-- Compress all 64-byte blocks (fuel-recursive so that concrete instances
reduce inside the kernel; the fuel is never exhausted when it is at least
the number of blocks). -/
def sha256ProcessF : Nat → List Nat → List Nat → List Nat
  | 0, hs, _ => hs
  | _ + 1, hs, [] => hs
  | f + 1, hs, b :: rest =>
    sha256ProcessF f (sha256Compress hs ((b :: rest).take 64)) ((b :: rest).drop 64)

/-- The 4 big-endian bytes of a 32-bit word. -/
def wordBytesBE (w : Nat) : List Nat :=
  [(w >>> 24) % 256, (w >>> 16) % 256, (w >>> 8) % 256, w % 256]

/-- SHA-256 of a byte sequence, as 32 bytes
(`crypto.subtle.digest('SHA-256', bytes)`). -/
def sha256Bytes (msg : List Nat) : List Nat :=
  (sha256ProcessF (sha256Pad msg).length shaH0 (sha256Pad msg)).foldr
    (fun w acc => wordBytesBE w ++ acc) []

/-- UTF-8 bytes of a character (what `TextEncoder` emits). -/
def utf8Bytes (c : Char) : List Nat :=
  let n := c.toNat
  if n < 128 then [n]
  else if n < 2048 then [192 + n / 64, 128 + n % 64]
  else if n < 65536 then [224 + n / 4096, 128 + (n / 64) % 64, 128 + n % 64]
  else [240 + n / 262144, 128 + (n / 4096) % 64, 128 + (n / 64) % 64, 128 + n % 64]

/-- `new TextEncoder().encode(s)`. -/
def strBytes (s : String) : List Nat := s.data.foldr (fun c acc => utf8Bytes c ++ acc) []

/-- HMAC-SHA256 over bytes (what `crypto.subtle.sign('HMAC', key, data)`
computes for a raw-imported SHA-256 HMAC key). -/
def hmacSha256 (keyBytes msgBytes : List Nat) : List Nat :=
  let k0 := if keyBytes.length > 64 then sha256Bytes keyBytes else keyBytes
  let kPad := k0 ++ List.replicate (64 - k0.length) 0
  sha256Bytes ((kPad.map (fun b => b ^^^ 92)) ++
    sha256Bytes ((kPad.map (fun b => b ^^^ 54)) ++ msgBytes))

/-- Lowercase hex digit, as produced by `b.toString(16)`. -/
def hexDigitChar (n : Nat) : Char :=
  if n < 10 then Char.ofNat (48 + n) else Char.ofNat (87 + n)

/-- `b.toString(16).padStart(2, '0')` for a byte. -/
def byteToHex (b : Nat) : List Char := [hexDigitChar (b / 16 % 16), hexDigitChar (b % 16)]

/-- `Array.from(bytes).map(b => b.toString(16).padStart(2,'0')).join('')`. -/
def bytesToHex (bs : List Nat) : String := ⟨bs.foldr (fun b acc => byteToHex b ++ acc) []⟩

/-- The base64 alphabet character of a 6-bit value. -/
def b64Char (n : Nat) : Char :=
  if n < 26 then Char.ofNat (65 + n)
  else if n < 52 then Char.ofNat (97 + (n - 26))
  else if n < 62 then Char.ofNat (48 + (n - 52))
  else if n = 62 then '+' else '/'

/-- Base64-encode bytes (with `=` padding), as `btoa` does. -/
def b64Encode : List Nat → List Char
  | [] => []
  | [b0] => [b64Char (b0 / 4), b64Char (b0 % 4 * 16), '=', '=']
  | [b0, b1] => [b64Char (b0 / 4), b64Char (b0 % 4 * 16 + b1 / 16), b64Char (b1 % 16 * 4), '=']
  | b0 :: b1 :: b2 :: rest =>
    b64Char (b0 / 4) :: b64Char (b0 % 4 * 16 + b1 / 16) ::
      b64Char (b1 % 16 * 4 + b2 / 64) :: b64Char (b2 % 64) :: b64Encode rest

/-- `btoa(s)`: treats each char as a latin-1 byte; throws
`InvalidCharacterError` (`none` here) on any code point above 255. -/
def btoaM (s : String) : Option String :=
  if s.data.all (fun c => c.toNat < 256) then some ⟨b64Encode (s.data.map Char.toNat)⟩ else none

/-- The 6-bit value of a base64 alphabet character. -/
def b64Val? (c : Char) : Option Nat :=
  if 'A' ≤ c ∧ c ≤ 'Z' then some (c.toNat - 65)
  else if 'a' ≤ c ∧ c ≤ 'z' then some (c.toNat - 97 + 26)
  else if '0' ≤ c ∧ c ≤ '9' then some (c.toNat - 48 + 52)
  else if c = '+' then some 62
  else if c = '/' then some 63
  else none

/-- Base64-decode a padded base64 text, as `atob` does; like `atob`, the
unused low bits of the final partial group are ignored, not validated. -/
def b64Decode : List Char → Option (List Nat)
  | [] => some []
  | c0 :: c1 :: c2 :: c3 :: rest =>
    if c2 = '=' ∧ c3 = '=' ∧ rest = [] then do
      let v0 ← b64Val? c0
      let v1 ← b64Val? c1
      some [v0 * 4 + v1 / 16]
    else if c3 = '=' ∧ rest = [] then do
      let v0 ← b64Val? c0
      let v1 ← b64Val? c1
      let v2 ← b64Val? c2
      some [v0 * 4 + v1 / 16, v1 % 16 * 16 + v2 / 4]
    else do
      let v0 ← b64Val? c0
      let v1 ← b64Val? c1
      let v2 ← b64Val? c2
      let v3 ← b64Val? c3
      let tail ← b64Decode rest
      some ((v0 * 4 + v1 / 16) :: (v1 % 16 * 16 + v2 / 4) :: (v2 % 4 * 64 + v3) :: tail)
  | _ => none

/-- `atob(s)`: base64-decode to a latin-1 string, `none` on malformed
input (where `atob` throws). -/
def atobM (s : String) : Option String :=
  (b64Decode s.data).map (fun bs => ⟨bs.map Char.ofNat⟩)

/-- Uppercase hex digit, as `encodeURIComponent` emits in `%XX` escapes. -/
def hexDigitCharUpper (n : Nat) : Char :=
  if n < 10 then Char.ofNat (48 + n) else Char.ofNat (55 + n)

/-- The characters `encodeURIComponent` leaves unescaped. -/
def isUriUnreserved (c : Char) : Bool :=
  c.isAlphanum || c = '-' || c = '_' || c = '.' || c = '!' || c = '~' ||
    c = '*' || c = '\'' || c = '(' || c = ')'

/-- The `%XX` escape of one byte. -/
def pctByte (b : Nat) : List Char := ['%', hexDigitCharUpper (b / 16 % 16), hexDigitCharUpper (b % 16)]

/-- `encodeURIComponent(s)`: unreserved characters pass through, every
other character is UTF-8 encoded and percent-escaped. -/
def encodeURIComponent (s : String) : String :=
  ⟨s.data.foldr (fun c acc =>
    (if isUriUnreserved c then [c]
     else (utf8Bytes c).foldr (fun b a2 => pctByte b ++ a2) []) ++ acc) []⟩

/-! ## JSON model

The bridge passes its state through `JSON.stringify`/`JSON.parse`.  The
states it produces and consumes are flat objects whose values are strings
and integers (millisecond timestamps), so JSON is modelled for that
fragment: objects are association lists in property order (the order
`JSON.stringify` serializes and `{...state}` spreading preserves), numbers
are integers.  `JSON.stringify` is modelled with the standard short escapes
and `\u00XX` for other control characters. -/

/-- A JSON value of the fragment the bridge uses. -/
inductive JVal
  | jstr (s : String)
  | jnum (n : Int)
deriving DecidableEq, Repr

/-- A JSON object: fields in property order. -/
abbrev JObj := List (String × JVal)

/-- Property read `o[k]`. -/
def getKey? : JObj → String → Option JVal
  | [], _ => none
  | (k0, v0) :: rest, k => if k0 = k then some v0 else getKey? rest k

/-- Property write `{...o, k: v}` (spread with override): an existing key
keeps its position with the new value; a new key is appended. -/
def setKey : JObj → String → JVal → JObj
  | [], k, v => [(k, v)]
  | (k0, v0) :: rest, k, v =>
    if k0 = k then (k0, v) :: rest else (k0, v0) :: setKey rest k v

/-- Rest-destructuring `const {k, ...data} = o`: drop the property. -/
def removeKey : JObj → String → JObj
  | [], _ => []
  | (k0, v0) :: rest, k =>
    if k0 = k then removeKey rest k else (k0, v0) :: removeKey rest k

/-- The four high-to-low hex digits of a code unit (for `\uXXXX`). -/
def hex4 (n : Nat) : List Char :=
  [hexDigitChar (n / 4096 % 16), hexDigitChar (n / 256 % 16),
   hexDigitChar (n / 16 % 16), hexDigitChar (n % 16)]

/-- `JSON.stringify` string escaping for one character. -/
def escChar (c : Char) : List Char :=
  if c = '"' then ['\\', '"']
  else if c = '\\' then ['\\', '\\']
  else if c = '\x08' then ['\\', 'b']
  else if c = '\t' then ['\\', 't']
  else if c = '\n' then ['\\', 'n']
  else if c = '\x0c' then ['\\', 'f']
  else if c = '\r' then ['\\', 'r']
  else if c.toNat < 32 then '\\' :: 'u' :: hex4 c.toNat
  else [c]

/-- Escape every character of a string body. -/
def escChars (cs : List Char) : List Char := cs.foldr (fun c acc => escChar c ++ acc) []

/-- A JSON string literal: `"..."` with escaping. -/
def quoteChars (s : String) : List Char := '"' :: (escChars s.data ++ ['"'])

/-- Decimal digit character. -/
def decDigitChar (n : Nat) : Char := Char.ofNat (48 + n)

/-- Decimal digits of a natural number (fuel-recursive; the fuel is never
exhausted when it exceeds the number). -/
def natCharsF : Nat → Nat → List Char
  | 0, _ => []
  | f + 1, n => if n < 10 then [decDigitChar n] else natCharsF f (n / 10) ++ [decDigitChar (n % 10)]

/-- The decimal notation `JSON.stringify` uses for an integer. -/
def intChars (n : Int) : List Char :=
  if n < 0 then '-' :: natCharsF ((-n).toNat + 1) (-n).toNat
  else natCharsF (n.toNat + 1) n.toNat

/-- `JSON.stringify` of a value of the fragment. -/
def stringifyVal : JVal → List Char
  | .jstr s => quoteChars s
  | .jnum n => intChars n

/-- The comma-separated members of an object literal. -/
def stringifyMembers : JObj → List Char
  | [] => []
  | [(k, v)] => quoteChars k ++ ':' :: stringifyVal v
  | (k, v) :: rest => quoteChars k ++ ':' :: stringifyVal v ++ ',' :: stringifyMembers rest

/-- `JSON.stringify(o)` for a flat object of the fragment. -/
def stringifyObj (o : JObj) : String := ⟨'{' :: (stringifyMembers o ++ ['}'])⟩

/-- JSON whitespace. -/
def isJsonWs (c : Char) : Bool := c == ' ' || c == '\t' || c == '\n' || c == '\r'

/-- Skip JSON whitespace. -/
def skipWs (l : List Char) : List Char := l.dropWhile (fun c => isJsonWs c)

/-- Decode a `\uXXXX` escape tail (the four hex digits). -/
def parseHex4Esc : List Char → Option (Char × List Char)
  | a :: b :: c2 :: d :: rest3 =>
    match hexDigitVal? a, hexDigitVal? b, hexDigitVal? c2, hexDigitVal? d with
    | some va, some vb, some vc, some vd =>
      some (Char.ofNat (((va * 16 + vb) * 16 + vc) * 16 + vd), rest3)
    | _, _, _, _ => none
  | _ => none

/-- Decode one JSON string escape (the input is what follows the
backslash); returns the decoded character and the remaining input. -/
def parseEscChar : List Char → Option (Char × List Char)
  | [] => none
  | e :: rest2 =>
    if e = '"' then some ('"', rest2)
    else if e = '\\' then some ('\\', rest2)
    else if e = '/' then some ('/', rest2)
    else if e = 'b' then some ('\x08', rest2)
    else if e = 't' then some ('\t', rest2)
    else if e = 'n' then some ('\n', rest2)
    else if e = 'f' then some ('\x0c', rest2)
    else if e = 'r' then some ('\r', rest2)
    else if e = 'u' then parseHex4Esc rest2
    else none

/-- Parse a JSON string body after the opening quote (fuel-recursive; each
step consumes at least one character, so fuel beyond the input length is
never exhausted); returns the decoded characters and the input after the
closing quote.  Unescaped control characters are invalid, as in
`JSON.parse`. -/
def parseStringBodyF : Nat → List Char → Option (List Char × List Char)
  | 0, _ => none
  | _ + 1, [] => none
  | f + 1, c :: rest =>
    if c = '"' then some ([], rest)
    else if c = '\\' then
      match parseEscChar rest with
      | some (d, rest2) => (fun p => (d :: p.1, p.2)) <$> parseStringBodyF f rest2
      | none => none
    else if c.toNat < 32 then none
    else (fun p => (c :: p.1, p.2)) <$> parseStringBodyF f rest

/-- Parse a JSON string body after the opening quote. -/
def parseStringBody (l : List Char) : Option (List Char × List Char) :=
  parseStringBodyF (l.length + 1) l

/-- Value of a run of decimal digit characters. -/
def digitsVal (ds : List Char) : Nat := ds.foldl (fun a c => a * 10 + (c.toNat - 48)) 0

/-- The value and remainder of a leading digit run. -/
def parseNumCore (l : List Char) : Option (Nat × List Char) :=
  let ds := l.takeWhile (fun c => c.isDigit)
  if ds = [] then none else some (digitsVal ds, l.dropWhile (fun c => c.isDigit))

/-- Parse an integer JSON number (the only numbers the bridge produces:
millisecond timestamps). -/
def parseNum : List Char → Option (Int × List Char)
  | [] => none
  | c :: rest =>
    if c = '-' then (parseNumCore rest).map (fun p => (-(p.1 : Int), p.2))
    else (parseNumCore (c :: rest)).map (fun p => ((p.1 : Int), p.2))

/-- Parse a value of the fragment (string or integer). -/
def parseVal : List Char → Option (JVal × List Char)
  | [] => none
  | c :: rest =>
    if c = '"' then (fun p => (JVal.jstr ⟨p.1⟩, p.2)) <$> parseStringBody rest
    else (fun p => (JVal.jnum p.1, p.2)) <$> parseNum (c :: rest)

/-- Demand a given (non-whitespace) character at the head. -/
def headIs (c : Char) : List Char → Option (List Char)
  | [] => none
  | x :: xs => if x = c then some xs else none

/-- Parse one `"key" : value` member. -/
def parseMemberKV (l : List Char) : Option (String × JVal × List Char) :=
  (headIs '"' (skipWs l)).bind fun rest =>
  (parseStringBody rest).bind fun p1 =>
  (headIs ':' (skipWs p1.2)).bind fun r2 =>
  (parseVal (skipWs r2)).map fun p2 => (⟨p1.1⟩, p2.1, p2.2)

/-- After a member: a comma (`some (true, …)`, more members follow) or the
closing brace (`some (false, …)`). -/
def memberEnd (l : List Char) : Option (Bool × List Char) :=
  match skipWs l with
  | [] => none
  | c :: r => if c = ',' then some (true, r) else if c = '}' then some (false, r) else none

/-- Parse the members of an object, accumulating with `setKey` (duplicate
keys overwrite, keeping first position, as in `JSON.parse`). -/
def parseMembersF : Nat → JObj → List Char → Option (JObj × List Char)
  | 0, _, _ => none
  | f + 1, acc, l =>
    (parseMemberKV l).bind fun kvr =>
      (memberEnd kvr.2.2).bind fun er =>
        if er.1 then parseMembersF f (setKey acc kvr.1 kvr.2.1) er.2
        else some (setKey acc kvr.1 kvr.2.1, er.2)

/-- `JSON.parse(s)` for a flat object of the fragment (`none` where
`JSON.parse` would throw a `SyntaxError`; top-level non-objects are outside
the modelled fragment — the bridge only ever encodes objects). -/
def parseObj (s : String) : Option JObj :=
  match skipWs s.data with
  | [] => none
  | c :: rest =>
    if c = '{' then
      match skipWs rest with
      | [] => none
      | c2 :: r2 =>
        if c2 = '}' then (if skipWs r2 = [] then some [] else none)
        else
          match parseMembersF (s.data.length + 1) [] rest with
          | some (o, r) => if skipWs r = [] then some o else none
          | none => none
    else none

/-! ## The crypto module — `signState` / `verifyState` -/

/-- Why `verifyState` rejects (which `Error` the async function throws):
`badPayload` covers the exceptions thrown before the comparison (`atob` on
malformed base64, `JSON.parse` on malformed JSON, `sig.match` on a missing,
non-string or empty signature field). -/
inductive VerifyErr
  | badPayload
  | invalidSignature
  | expired
deriving DecidableEq, Repr

/-- `signState(state, secret)` — `JSON.stringify` the state, HMAC-SHA256 it
with the UTF-8 secret, hex-encode the tag, then
`btoa(JSON.stringify({...state, sig}))`.  `none` models the
`InvalidCharacterError` `btoa` throws on non-latin-1 serializations. -/
def signState (state : JObj) (secret : String) : Option String :=
  let data := stringifyObj state
  let signatureHex := bytesToHex (hmacSha256 (strBytes secret) (strBytes data))
  btoaM (stringifyObj (setKey state "sig" (JVal.jstr signatureHex)))

/-- `sig.match(/.{1,2}/g)`: split into chunks of two (last may be one). -/
def chunkPairs : List Char → List (List Char)
  | a :: b :: rest => [a, b] :: chunkPairs rest
  | [a] => [[a]]
  | [] => []

/-- `parseInt(chunk, 16)` followed by `Uint8Array.from`'s coercion: the
leading hex-digit prefix is parsed; no digits gives `NaN`, which
`Uint8Array.from` turns into 0. -/
def parseHexPairJS (cs : List Char) : Nat :=
  match (takeDigits hexDigitVal? 16 cs none).1 with
  | some v => v
  | none => 0

/-- `Date.now() - data.ts > 600000` — the expiry test used both by
`verifyState` and by the callback handler.  A missing or non-numeric `ts`
makes the subtraction `NaN` and the comparison false; a numeric string is
coerced by `-` (modelled for trimmed decimal integer strings, the only
shape the code ever produces). -/
def tsExpired (data : JObj) (nowMs : Int) : Bool :=
  match getKey? data "ts" with
  | some (JVal.jnum t) => nowMs - t > 600000
  | some (JVal.jstr s) =>
    let t := s.data.dropWhile (fun c => isJsSpace c)
    let t := (t.reverse.dropWhile (fun c => isJsSpace c)).reverse
    if t = [] then nowMs - 0 > 600000
    else if t.all (fun c => c.isDigit) then nowMs - (digitsVal t : Int) > 600000
    else false
  | none => false

/-- `verifyState(encodedState, secret)` at time `nowMs`:
`JSON.parse(atob(encodedState))`, split off `sig`, recompute HMAC-SHA256
over the re-serialized rest, compare (`crypto.subtle.verify`, constant
time), then enforce the 600 000 ms expiry window; returns the state without
its signature field. -/
def verifyState (encodedState : String) (secret : String) (nowMs : Int) :
    Except VerifyErr JObj :=
  match atobM encodedState with
  | none => .error .badPayload
  | some json =>
    match parseObj json with
    | none => .error .badPayload
    | some state =>
      let data := removeKey state "sig"
      match getKey? state "sig" with
      | some (JVal.jstr sig) =>
        if sig = "" then .error .badPayload
        else
          let signature := (chunkPairs sig.data).map parseHexPairJS
          if signature = hmacSha256 (strBytes secret) (strBytes (stringifyObj data)) then
            if tsExpired data nowMs then .error .expired else .ok data
          else .error .invalidSignature
      | _ => .error .badPayload

/-! ## The GitHub OAuth bridge worker -/

/-- Does `s.includes(t)` hold for the one-character needles the workers
use? -/
def hasChar (s : String) (c : Char) : Bool := s.data.contains c

/-- Outcome of `GET /oauth/github/callback` (the bridge worker):
constructor per early return.  `oauthError` is the catch-all 500 for
exceptions (`atob`/`JSON.parse`/property access on non-strings). -/
inductive CallbackResult
  | badRequest
  | stateExpired
  | githubAuthFailed
  | notOwner
  | oauthError
  | redirect (location : String)
deriving DecidableEq, Repr

/-- HTTP status of each callback outcome. -/
def callbackStatus : CallbackResult → Nat
  | .badRequest => 400
  | .stateExpired => 400
  | .githubAuthFailed => 500
  | .notOwner => 403
  | .oauthError => 500
  | .redirect _ => 302

/-- The `Location` a callback outcome redirects to, if any. -/
def redirectLocation? : CallbackResult → Option String
  | .redirect l => some l
  | _ => none

/-- `GET /oauth/github/callback` (bridge worker lines 88-128).  The two
outbound provider calls are oracle inputs: `accessToken` is the
`access_token` field of the token-exchange response (`none` when absent)
and `userLogin` the login GitHub reports for that token.  The handler
parses the state and checks only its `ts` age; it never recomputes or
compares a signature. -/
def githubOauthCallback (code encodedState : Option String) (nowMs : Int)
    (accessToken : Option String) (userLogin ownerLogin : String) : CallbackResult :=
  match truthy code, truthy encodedState with
  | some _, some es =>
    match (atobM es).bind parseObj with
    | none => .oauthError
    | some state =>
      if tsExpired state nowMs then .stateExpired
      else
        match accessToken with
        | none => .githubAuthFailed
        | some githubToken =>
          if userLogin ≠ ownerLogin then .notOwner
          else
            match getKey? state "clientRedirect" with
            | some (JVal.jstr clientRedirect) =>
              let separator := if hasChar clientRedirect '?' then "&" else "?"
              .redirect (clientRedirect ++ separator ++ "code=" ++
                encodeURIComponent githubToken)
            | _ => .oauthError
  | _, _ => .badRequest

/-- The state `GET /oauth/authorize` of the bridge worker builds (lines
75-78): `btoa(JSON.stringify({clientRedirect, ts}))` — unsigned. -/
def bridgeAuthorizeState (redirectUri : String) (nowMs : Int) : Option String :=
  btoaM (stringifyObj [("clientRedirect", JVal.jstr redirectUri), ("ts", JVal.jnum nowMs)])

/-- `s.startsWith(p)` on the ASCII strings the worker compares. -/
def strStartsWith (s p : String) : Bool := s.data.take p.data.length = p.data

/-- Outcome of `POST /api/v1/statuses` (bridge worker lines 149-213). -/
inductive PostStatusResult
  | unauthorized
  | forbidden
  | created (commitPath : String) (commitContent : Option String)
      (statusContent : String) (visibility : String) (sensitive : Bool)
deriving DecidableEq, Repr

/-- HTTP status of each post outcome. -/
def postStatusCode : PostStatusResult → Nat
  | .unauthorized => 401
  | .forbidden => 403
  | .created _ _ _ _ _ => 201

/-- The content-store commit a post outcome performs, if any. -/
def commitOf? : PostStatusResult → Option (String × Option String)
  | .created p c _ _ _ => some (p, c)
  | _ => none

/-- `POST /api/v1/statuses`: bearer check, then the identity gate
(`user.login !== env.OWNER_GITHUB_USERNAME` → 403), then the GitHub commit
and the 201 response.  `userLogin` is the oracle for the login GitHub
reports for the presented token; `dateIso`/`nowId` stand for
`now.toISOString()` and `Date.now().toString()`. -/
def postStatuses (authHeader : Option String) (userLogin ownerLogin : String)
    (bodyStatus bodyVisibility : Option String) (bodySensitive : Bool)
    (dateIso datePart nowId : String) : PostStatusResult :=
  match authHeader with
  | none => .unauthorized
  | some ah =>
    if ¬ strStartsWith ah "Bearer " then .unauthorized
    else if userLogin ≠ ownerLogin then .forbidden
    else
      let content := (truthy bodyStatus).getD ""
      let visibility := (truthy bodyVisibility).getD "public"
      let sensitive := bodySensitive
      let frontmatter := "---\ndate: " ++ dateIso ++ "\nvisibility: " ++ visibility ++
        "\nsensitive: " ++ (if sensitive then "true" else "false") ++ "\n---\n\n" ++ content
      .created ("posts/" ++ datePart ++ "-" ++ nowId ++ ".md") (btoaM frontmatter)
        content visibility sensitive

/-! ## The auto-approve worker — `GET /oauth/authorize`, src/worker.ts 65-91 -/

/-- Outcome of the auto-approve authorize endpoint. -/
inductive AuthorizeResult
  | invalidRequest
  | redirect (location : String)
deriving DecidableEq, Repr

/-- HTTP status of each authorize outcome. -/
def authorizeStatus : AuthorizeResult → Nat
  | .invalidRequest => 400
  | .redirect _ => 302

/-- `s.slice(0, n)` on an ASCII string (the worker slices a hex digest). -/
def strTakeJS (s : String) (n : Nat) : String := ⟨s.data.take n⟩

/-- `GET /oauth/authorize` (src/worker.ts lines 65-91): requires truthy
`client_id` and `redirect_uri` and `response_type === 'code'`; the
authorization code is the first 32 hex characters of
SHA-256(`clientId + ':auth_code'`), appended with `?` or `&` depending on
whether the redirect URI already contains `?`. -/
def oauthAuthorize (clientId redirectUri responseType : Option String) : AuthorizeResult :=
  match truthy clientId, truthy redirectUri with
  | some cid, some ruri =>
    if responseType ≠ some "code" then .invalidRequest
    else
      let authCode := strTakeJS (bytesToHex (sha256Bytes (strBytes (cid ++ ":auth_code")))) 32
      let separator := if hasChar ruri '?' then "&" else "?"
      .redirect (ruri ++ separator ++ "code=" ++ authCode)
  | _, _ => .invalidRequest

/-! ## Concrete artifacts for the signing and bridge scenarios -/

instance : DecidableEq (Except VerifyErr JObj) := fun a b =>
  match a, b with
  | .error x, .error y =>
    if h : x = y then isTrue (by rw [h]) else isFalse (by intro hc; cases hc; exact h rfl)
  | .ok x, .ok y =>
    if h : x = y then isTrue (by rw [h]) else isFalse (by intro hc; cases hc; exact h rfl)
  | .error _, .ok _ => isFalse (by intro hc; cases hc)
  | .ok _, .error _ => isFalse (by intro hc; cases hc)

/-- The bridge state object used in the concrete scenarios. -/
def demoObj : JObj := [("clientRedirect", JVal.jstr "https://elk.zone/cb"), ("ts", JVal.jnum 0)]

/-- `demoObj` signed with the secret `topsecret` (the output of
`signState demoObj "topsecret"`). -/
def demoSigned : String :=
  "eyJjbGllbnRSZWRpcmVjdCI6Imh0dHBzOi8vZWxrLnpvbmUvY2IiLCJ0cyI6MCwic2lnIjoiN2MzZDU2ZWJkYjdmZjI3OTRkN2ZkMDEyNjc3ZTk2YzE3Mjg5NzJhMjc5ZGViZmU3ODlkZDk4NjZiNzA4ZDFjYSJ9"

/-- `demoSigned` with one byte changed (the hex digit `c` of the signature
uppercased, which flips exactly one character of the base64 text). -/
def demoTampered : String :=
  "eyJjbGllbnRSZWRpcmVjdCI6Imh0dHBzOi8vZWxrLnpvbmUvY2IiLCJ0cyI6MCwic2lnIjoiN0MzZDU2ZWJkYjdmZjI3OTRkN2ZkMDEyNjc3ZTk2YzE3Mjg5NzJhMjc5ZGViZmU3ODlkZDk4NjZiNzA4ZDFjYSJ9"

/-- The unsigned state the bridge authorize endpoint itself produces for
`demoObj`'s redirect URI at `ts = 0`. -/
def demoUnsignedState : String := (bridgeAuthorizeState "https://elk.zone/cb" 0).getD ""

/-- A state payload whose `sig` field is `"00"` — a signature that does
not match any HMAC of its fields. -/
def c2state : String :=
  (btoaM (stringifyObj [("clientRedirect", JVal.jstr "https://elk.zone/cb"),
    ("ts", JVal.jnum 1000), ("sig", JVal.jstr "00")])).getD ""

/-- A state payload whose client redirect URI itself contains two `?`
characters (a valid URI: `?` may occur inside a query). -/
def c10state : String :=
  (btoaM (stringifyObj [("clientRedirect", JVal.jstr "https://a/cb?x=1?y"),
    ("ts", JVal.jnum 0)])).getD ""

/-! ## Theorems -/

/-- Serving a request leaves the embedded index untouched and returns the
same page as the pure pagination pipeline. -/
theorem handleAccountStatusesHeap_eq (h : Heap) (p : PageParams) :
    handleAccountStatusesHeap h p = (h, handleAccountStatuses h.store p) := by
  unfold handleAccountStatusesHeap handleAccountStatuses cursorFiltered
    applyMaxIdFilter applySinceIdFilter applyMinIdFilter
  cases truthy p.max_id with
  | none =>
    cases truthy p.since_id with
    | none =>
      cases truthy p.min_id with
      | none => rfl
      | some m =>
        simp only [readRef, refSliceToIdx, refReverse, refSliceZeroTo]
        cases h.store.findIdx? (fun st => st.id = m) <;> rfl
    | some m =>
      simp only [readRef]
      cases h.store.findIdx? (fun st => st.id = m) with
      | none =>
        cases truthy p.min_id with
        | none => rfl
        | some m2 =>
          simp only [readRef, refSliceToIdx, refReverse, refSliceZeroTo]
          cases h.store.findIdx? (fun st => st.id = m2) <;> rfl
      | some i =>
        simp only [refSliceToIdx, readRef]
        cases truthy p.min_id with
        | none => rfl
        | some m2 =>
          simp only [readRef, refSliceToIdx, refReverse, refSliceZeroTo]
          cases (h.store.take i).findIdx? (fun st => st.id = m2) <;> rfl
  | some m =>
    simp only [readRef]
    cases h.store.findIdx? (fun st => st.id = m) with
    | none =>
      cases truthy p.since_id with
      | none =>
        cases truthy p.min_id with
        | none => rfl
        | some m2 =>
          simp only [readRef, refSliceToIdx, refReverse, refSliceZeroTo]
          cases h.store.findIdx? (fun st => st.id = m2) <;> rfl
      | some m1 =>
        simp only [readRef]
        cases h.store.findIdx? (fun st => st.id = m1) with
        | none =>
          cases truthy p.min_id with
          | none => rfl
          | some m2 =>
            simp only [readRef, refSliceToIdx, refReverse, refSliceZeroTo]
            cases h.store.findIdx? (fun st => st.id = m2) <;> rfl
        | some j =>
          simp only [refSliceToIdx, readRef]
          cases truthy p.min_id with
          | none => rfl
          | some m2 =>
            simp only [readRef, refSliceToIdx, refReverse, refSliceZeroTo]
            cases (h.store.take j).findIdx? (fun st => st.id = m2) <;> rfl
    | some i =>
      simp only [refSliceFrom, readRef]
      cases truthy p.since_id with
      | none =>
        cases truthy p.min_id with
        | none => rfl
        | some m2 =>
          simp only [readRef, refSliceToIdx, refReverse, refSliceZeroTo]
          cases (h.store.drop (i + 1)).findIdx? (fun st => st.id = m2) <;> rfl
      | some m1 =>
        simp only [readRef]
        cases (h.store.drop (i + 1)).findIdx? (fun st => st.id = m1) with
        | none =>
          cases truthy p.min_id with
          | none => rfl
          | some m2 =>
            simp only [readRef, refSliceToIdx, refReverse, refSliceZeroTo]
            cases (h.store.drop (i + 1)).findIdx? (fun st => st.id = m2) <;> rfl
        | some j =>
          simp only [refSliceToIdx, readRef]
          cases truthy p.min_id with
          | none => rfl
          | some m2 =>
            simp only [readRef, refSliceToIdx, refReverse, refSliceZeroTo]
            cases ((h.store.drop (i + 1)).take j).findIdx? (fun st => st.id = m2) <;> rfl

/-! ## Helper lemmas about the pagination pipeline -/

/-- If the first match of `p` in `l` is at position `j`, then after
dropping `k ≤ j` elements the first match is at `j - k`. -/
theorem findIdx?_drop (p : α → Bool) :
    ∀ (k : Nat) (l : List α) (j : Nat), l.findIdx? p = some j → k ≤ j →
      (l.drop k).findIdx? p = some (j - k) := by
  intro k
  induction k with
  | zero => intro l j hj _; simpa using hj
  | succ k ih =>
    intro l j hj hk
    cases l with
    | nil => simp [List.findIdx?_nil] at hj
    | cons x xs =>
      rw [List.findIdx?_cons] at hj
      by_cases hx : p x
      · simp [hx] at hj
        omega
      · simp [hx, List.findIdx?_succ] at hj
        obtain ⟨j0, hj0, rfl⟩ := hj
        have : (xs.drop k).findIdx? p = some (j0 - k) := ih xs j0 hj0 (by omega)
        simpa [List.drop_succ_cons, Nat.succ_sub (by omega : k ≤ j0)] using this

/-- Elements surviving the `max_id` filter come from the input list. -/
theorem mem_of_mem_applyMaxIdFilter {x : StatusIndex} {l : List StatusIndex}
    {c : Option String} (h : x ∈ applyMaxIdFilter l c) : x ∈ l := by
  unfold applyMaxIdFilter at h
  split at h
  · split at h
    · exact List.mem_of_mem_drop h
    · exact h
  · exact h

/-- Elements surviving the `since_id` filter come from the input list. -/
theorem mem_of_mem_applySinceIdFilter {x : StatusIndex} {l : List StatusIndex}
    {c : Option String} (h : x ∈ applySinceIdFilter l c) : x ∈ l := by
  unfold applySinceIdFilter at h
  split at h
  · split at h
    · exact List.mem_of_mem_take h
    · exact h
  · exact h

/-- A cursor id that occurs nowhere in the list leaves the `max_id` filter
a no-op. -/
theorem applyMaxIdFilter_of_not_mem {l : List StatusIndex} {c : String}
    (h : c ∉ l.map StatusIndex.id) : applyMaxIdFilter l (some c) = l := by
  unfold applyMaxIdFilter truthy
  by_cases hc : c = ""
  · simp [hc]
  · have : l.findIdx? (fun s => s.id = c) = none := by
      rw [List.findIdx?_eq_none_iff]
      intro x hx
      simp only [decide_eq_false_iff_not]
      intro hxc
      exact h (List.mem_map.mpr ⟨x, hx, hxc⟩)
    simp [hc, this]

/-- A cursor id that occurs nowhere in the list leaves the `since_id`
filter a no-op. -/
theorem applySinceIdFilter_of_not_mem {l : List StatusIndex} {c : String}
    (h : c ∉ l.map StatusIndex.id) : applySinceIdFilter l (some c) = l := by
  unfold applySinceIdFilter truthy
  by_cases hc : c = ""
  · simp [hc]
  · have : l.findIdx? (fun s => s.id = c) = none := by
      rw [List.findIdx?_eq_none_iff]
      intro x hx
      simp only [decide_eq_false_iff_not]
      intro hxc
      exact h (List.mem_map.mpr ⟨x, hx, hxc⟩)
    simp [hc, this]

/-- A cursor id that occurs nowhere in the list leaves the `min_id` filter
a no-op. -/
theorem applyMinIdFilter_of_not_mem {l : List StatusIndex} {c : String}
    (h : c ∉ l.map StatusIndex.id) : applyMinIdFilter l (some c) = l := by
  unfold applyMinIdFilter truthy
  by_cases hc : c = ""
  · simp [hc]
  · have : l.findIdx? (fun s => s.id = c) = none := by
      rw [List.findIdx?_eq_none_iff]
      intro x hx
      simp only [decide_eq_false_iff_not]
      intro hxc
      exact h (List.mem_map.mpr ⟨x, hx, hxc⟩)
    simp [hc, this]

/-- The `none` cursor is always a no-op, for each of the three filters. -/
theorem applyFilters_none (l : List StatusIndex) :
    applyMaxIdFilter l none = l ∧ applySinceIdFilter l none = l ∧
      applyMinIdFilter l none = l :=
  ⟨rfl, rfl, rfl⟩

/-- Ids that survive a `max_id` filter were ids of the input list. -/
theorem not_mem_ids_applyMaxIdFilter {l : List StatusIndex} {c' : Option String}
    {c : String} (h : c ∉ l.map StatusIndex.id) :
    c ∉ (applyMaxIdFilter l c').map StatusIndex.id := by
  intro hc
  obtain ⟨x, hx, hxc⟩ := List.mem_map.mp hc
  exact h (List.mem_map.mpr ⟨x, mem_of_mem_applyMaxIdFilter hx, hxc⟩)

/-- Ids that survive a `since_id` filter were ids of the input list. -/
theorem not_mem_ids_applySinceIdFilter {l : List StatusIndex} {c' : Option String}
    {c : String} (h : c ∉ l.map StatusIndex.id) :
    c ∉ (applySinceIdFilter l c').map StatusIndex.id := by
  intro hc
  obtain ⟨x, hx, hxc⟩ := List.mem_map.mp hc
  exact h (List.mem_map.mpr ⟨x, mem_of_mem_applySinceIdFilter hx, hxc⟩)

/-! ## Claim theorems: pagination -/

/-- C1 counterexample: on the five-post timeline with `max_id=5` and
`since_id=1` both present and both found, the page differs from the page
produced by `max_id=5` alone — the filters combine instead of the
highest-precedence cursor winning. -/
theorem c1_cursor_precedence_counterexample :
    handleAccountStatuses fiveP ⟨none, some "5", some "1", none⟩ ≠
      handleAccountStatuses fiveP ⟨none, some "5", none, none⟩ := by decide

/-- C1 (amended): the cursor filters are applied sequentially, each to the
output of the previous one, so simultaneous cursors combine.  In
particular when `max_id` is first found at position `i` and `since_id` at
position `j > i`, the page is the limit-truncated window of posts strictly
between the two positions (not the `max_id`-only page). -/
theorem c1_amended_cursors_combine (posts : List StatusIndex) (m s : String)
    (lim : Option String) (i j : Nat)
    (hm : m ≠ "") (hs : s ≠ "")
    (hi : posts.findIdx? (fun st => st.id = m) = some i)
    (hj : posts.findIdx? (fun st => st.id = s) = some j)
    (hij : i < j) :
    handleAccountStatuses posts ⟨lim, some m, some s, none⟩ =
      jsSliceZeroTo ((posts.drop (i + 1)).take (j - (i + 1))) (effectiveLimit lim) := by
  unfold handleAccountStatuses cursorFiltered
  have h1 : applyMaxIdFilter posts (some m) = posts.drop (i + 1) := by
    unfold applyMaxIdFilter truthy
    simp [hm, hi]
  have h2 : applySinceIdFilter (posts.drop (i + 1)) (some s) =
      (posts.drop (i + 1)).take (j - (i + 1)) := by
    unfold applySinceIdFilter truthy
    have hd := findIdx?_drop (fun st => st.id = s) (i + 1) posts j hj (by omega)
    simp [hs, hd]
  show jsSliceZeroTo (applyMinIdFilter (applySinceIdFilter
      (applyMaxIdFilter posts (some m)) (some s)) none) (effectiveLimit lim) = _
  rw [h1, h2]
  rfl

/-- Witness for C1's amended theorem at the five-post timeline with
`max_id=5` (position 0) and `since_id=1` (position 4). -/
theorem c1_amended_cursors_combine_witness :
    fiveP.findIdx? (fun st => st.id = "5") = some 0 ∧
      fiveP.findIdx? (fun st => st.id = "1") = some 4 ∧
      handleAccountStatuses fiveP ⟨none, some "5", some "1", none⟩ =
        jsSliceZeroTo ((fiveP.drop 1).take 3) (effectiveLimit none) :=
  ⟨by decide, by decide,
    c1_amended_cursors_combine fiveP "5" "1" none 0 4 (by decide) (by decide)
      (by decide) (by decide) (by decide)⟩

/-- C3 counterexample: with `limit=0` on the five-post timeline the page is
empty, not of length `min 1 5 = 1` — there is no lower clamp to 1. -/
theorem c3_limit_clamp_counterexample :
    (handleAccountStatuses fiveP ⟨some "0", none, none, none⟩).length ≠
      min 1 fiveP.length := by decide

/-- C3 (amended): the effective limit is `Math.min(parseInt(limit), 40)`
with `'20'` substituted only for an absent or empty parameter; there is no
lower clamp.  For any limit string parsing to a non-negative `n`, the page
length is `min (min n 40) available`; `limit=0` therefore yields an empty
page, a negative limit drops elements from the end (JS `slice` semantics),
and a non-numeric limit yields `NaN` and an empty page. -/
theorem c3_amended_limit_no_lower_clamp (posts : List StatusIndex) (p : PageParams)
    (n : Int) (hn : 0 ≤ n)
    (hL : parseIntJS (jsGetOrDefault p.limit "20") = some n) :
    (handleAccountStatuses posts p).length =
      min (min n 40).toNat (cursorFiltered posts p).length := by
  unfold handleAccountStatuses jsSliceZeroTo effectiveLimit
  rw [hL]
  simp only [Option.map_some']
  rw [if_neg (by omega)]
  rw [List.length_take]

/-- Witness for C3's amended theorem: `limit=7` on the five-post timeline
serves `min 7 5 = 5` posts. -/
theorem c3_amended_limit_no_lower_clamp_witness :
    parseIntJS (jsGetOrDefault (some "7") "20") = some 7 ∧
      (handleAccountStatuses fiveP ⟨some "7", none, none, none⟩).length =
        min ((min 7 40 : Int)).toNat
          (cursorFiltered fiveP ⟨some "7", none, none, none⟩).length :=
  ⟨by decide,
    c3_amended_limit_no_lower_clamp fiveP ⟨some "7", none, none, none⟩ 7
      (by decide) (by decide)⟩

/-- C7: a cursor id that occurs nowhere in the list makes that cursor's
filter a no-op — the page is identical to the page served with the cursor
absent, for each of `max_id`, `since_id` and `min_id`. -/
theorem c7_stale_cursor_noop (posts : List StatusIndex) (p : PageParams) (c : String)
    (h : c ∉ posts.map StatusIndex.id) :
    handleAccountStatuses posts { p with max_id := some c } =
        handleAccountStatuses posts { p with max_id := none } ∧
      handleAccountStatuses posts { p with since_id := some c } =
        handleAccountStatuses posts { p with since_id := none } ∧
      handleAccountStatuses posts { p with min_id := some c } =
        handleAccountStatuses posts { p with min_id := none } := by
  refine ⟨?_, ?_, ?_⟩ <;> unfold handleAccountStatuses cursorFiltered <;>
    simp only []
  · rw [applyMaxIdFilter_of_not_mem h]
    rfl
  · rw [applySinceIdFilter_of_not_mem (not_mem_ids_applyMaxIdFilter h)]
    rfl
  · rw [applyMinIdFilter_of_not_mem
      (not_mem_ids_applySinceIdFilter (not_mem_ids_applyMaxIdFilter h))]
    rfl

/-- Witness for C7 at the five-post timeline with the stale cursor id 9. -/
theorem c7_stale_cursor_noop_witness :
    ("9" ∉ fiveP.map StatusIndex.id) ∧
      (handleAccountStatuses fiveP { pEmpty with max_id := some "9" } =
          handleAccountStatuses fiveP { pEmpty with max_id := none } ∧
        handleAccountStatuses fiveP { pEmpty with since_id := some "9" } =
          handleAccountStatuses fiveP { pEmpty with since_id := none } ∧
        handleAccountStatuses fiveP { pEmpty with min_id := some "9" } =
          handleAccountStatuses fiveP { pEmpty with min_id := none }) :=
  ⟨by decide, c7_stale_cursor_noop fiveP pEmpty "9" (by decide)⟩

/-! ## Round-trip lemmas: base64 -/

/-- Every 6-bit value decodes back from its alphabet character. -/
theorem b64Val?_b64Char : ∀ n < 64, b64Val? (b64Char n) = some n := by decide

/-- Alphabet characters are never the padding character. -/
theorem b64Char_ne_pad : ∀ n < 64, b64Char n ≠ '=' := by decide

/-- `atob` inverts `btoa` on byte lists. -/
theorem b64Decode_b64Encode : ∀ (bs : List Nat), (∀ b ∈ bs, b < 256) →
    b64Decode (b64Encode bs) = some bs
  | [], _ => rfl
  | [b0], h => by
    have hb0 : b0 < 256 := h b0 (by simp)
    show b64Decode [b64Char (b0 / 4), b64Char (b0 % 4 * 16), '=', '='] = some [b0]
    unfold b64Decode
    rw [if_pos ⟨rfl, rfl, rfl⟩,
      b64Val?_b64Char _ (by omega), b64Val?_b64Char _ (by omega)]
    show some [b0 / 4 * 4 + b0 % 4 * 16 / 16] = some [b0]
    congr 1
    congr 1
    omega
  | [b0, b1], h => by
    have hb0 : b0 < 256 := h b0 (by simp)
    have hb1 : b1 < 256 := h b1 (by simp)
    show b64Decode [b64Char (b0 / 4), b64Char (b0 % 4 * 16 + b1 / 16),
      b64Char (b1 % 16 * 4), '='] = some [b0, b1]
    unfold b64Decode
    rw [if_neg (by
        intro hc
        exact b64Char_ne_pad (b1 % 16 * 4) (by omega) hc.1),
      if_pos ⟨rfl, rfl⟩,
      b64Val?_b64Char _ (by omega), b64Val?_b64Char _ (by omega),
      b64Val?_b64Char _ (by omega)]
    show some [b0 / 4 * 4 + (b0 % 4 * 16 + b1 / 16) / 16,
      (b0 % 4 * 16 + b1 / 16) % 16 * 16 + b1 % 16 * 4 / 4] = some [b0, b1]
    congr 1
    congr 1
    · omega
    · congr 1
      omega
  | b0 :: b1 :: b2 :: rest, h => by
    have hb0 : b0 < 256 := h b0 (by simp)
    have hb1 : b1 < 256 := h b1 (by simp)
    have hb2 : b2 < 256 := h b2 (by simp)
    have ih := b64Decode_b64Encode rest (fun b hb => h b (by simp [hb]))
    show b64Decode (b64Char (b0 / 4) :: b64Char (b0 % 4 * 16 + b1 / 16) ::
      b64Char (b1 % 16 * 4 + b2 / 64) :: b64Char (b2 % 64) :: b64Encode rest) =
      some (b0 :: b1 :: b2 :: rest)
    unfold b64Decode
    rw [if_neg (by
        intro hc
        exact b64Char_ne_pad (b1 % 16 * 4 + b2 / 64) (by omega) hc.1),
      if_neg (by
        intro hc
        exact b64Char_ne_pad (b2 % 64) (by omega) hc.1),
      b64Val?_b64Char _ (by omega), b64Val?_b64Char _ (by omega),
      b64Val?_b64Char _ (by omega), b64Val?_b64Char _ (by omega)]
    show (b64Decode (b64Encode rest)).bind _ = _
    rw [ih]
    show some ((b0 / 4 * 4 + (b0 % 4 * 16 + b1 / 16) / 16) ::
      ((b0 % 4 * 16 + b1 / 16) % 16 * 16 + (b1 % 16 * 4 + b2 / 64) / 4) ::
      ((b1 % 16 * 4 + b2 / 64) % 4 * 64 + b2 % 64) :: rest) = _
    congr 2
    · omega
    congr 1
    · omega
    congr 1
    omega

/-- `atob(btoa(s)) = s` whenever `btoa` accepts `s`. -/
theorem atobM_btoaM (s e : String) (he : btoaM s = some e) : atobM e = some s := by
  unfold btoaM at he
  split at he
  case isTrue hall =>
    cases he
    unfold atobM
    show (b64Decode (b64Encode (s.data.map Char.toNat))).map _ = some s
    rw [b64Decode_b64Encode _ (by
      intro b hb
      obtain ⟨c, hc, rfl⟩ := List.mem_map.mp hb
      have := hall
      rw [List.all_eq_true] at this
      simpa using this c hc)]
    show some (⟨(s.data.map Char.toNat).map Char.ofNat⟩ : String) = some s
    rw [List.map_map]
    congr 1
    show (⟨s.data.map (Char.ofNat ∘ Char.toNat)⟩ : String) = s
    have : s.data.map (Char.ofNat ∘ Char.toNat) = s.data := by
      have hcongr : s.data.map (Char.ofNat ∘ Char.toNat) = s.data.map id :=
        List.map_congr_left (fun c _ => Char.ofNat_toNat c)
      rw [hcongr]
      exact List.map_id s.data
    rw [this]
  case isFalse => exact absurd he (by simp)

/-! ## Round-trip lemmas: JSON -/

/-- Every 4-bit value parses back from its hex digit. -/
theorem hexDigitVal?_hexDigitChar : ∀ v < 16, hexDigitVal? (hexDigitChar v) = some v := by
  decide

/-- One step of the string parser on a backslash, once the escape decodes. -/
theorem parseStringBodyF_escStep (f : Nat) (d : Char) (tail tail2 : List Char)
    (h : parseEscChar tail = some (d, tail2)) :
    parseStringBodyF (f + 1) ('\\' :: tail) =
      (fun p => (d :: p.1, p.2)) <$> parseStringBodyF f tail2 := by
  show (if ('\\' : Char) = '"' then some ([], tail)
    else if ('\\' : Char) = '\\' then
      match parseEscChar tail with
      | some (d, rest2) => (fun p => (d :: p.1, p.2)) <$> parseStringBodyF f rest2
      | none => none
    else if ('\\' : Char).toNat < 32 then none
    else (fun p => ('\\' :: p.1, p.2)) <$> parseStringBodyF f tail) = _
  rw [if_neg (by decide), if_pos rfl, h]

/-- `escChar` output decodes back: the escape produced for a character that
needs escaping is recognised by `parseEscChar`. -/
theorem parseEscChar_escChar (c : Char) (tail : List Char) (esc : List Char)
    (h : escChar c = '\\' :: esc) : parseEscChar (esc ++ tail) = some (c, tail) := by
  by_cases h1 : c = '"'
  · subst h1
    have hh : ['"'] = esc := by simpa [escChar] using h
    rw [← hh]
    simp [parseEscChar]
  by_cases h2 : c = '\\'
  · subst h2
    have hh : ['\\'] = esc := by simpa [escChar, h1] using h
    rw [← hh]
    simp [parseEscChar]
  by_cases h3 : c = '\x08'
  · subst h3
    have hh : ['b'] = esc := by simpa [escChar, h1, h2] using h
    rw [← hh]
    simp [parseEscChar]
  by_cases h4 : c = '\t'
  · subst h4
    have hh : ['t'] = esc := by simpa [escChar, h1, h2, h3] using h
    rw [← hh]
    simp [parseEscChar]
  by_cases h5 : c = '\n'
  · subst h5
    have hh : ['n'] = esc := by simpa [escChar, h1, h2, h3, h4] using h
    rw [← hh]
    simp [parseEscChar]
  by_cases h6 : c = '\x0c'
  · subst h6
    have hh : ['f'] = esc := by simpa [escChar, h1, h2, h3, h4, h5] using h
    rw [← hh]
    simp [parseEscChar]
  by_cases h7 : c = '\r'
  · subst h7
    have hh : ['r'] = esc := by simpa [escChar, h1, h2, h3, h4, h5, h6] using h
    rw [← hh]
    simp [parseEscChar]
  by_cases h8 : c.toNat < 32
  · have hesc : esc = 'u' :: hex4 c.toNat := by
      have hh := h
      simp [escChar, h1, h2, h3, h4, h5, h6, h7, h8] at hh
      exact hh.symm
    subst hesc
    simp only [parseEscChar, List.cons_append]
    rw [if_neg (by decide), if_neg (by decide), if_neg (by decide), if_neg (by decide),
      if_neg (by decide), if_neg (by decide), if_neg (by decide), if_neg (by decide),
      if_pos trivial]
    show parseHex4Esc (hexDigitChar (c.toNat / 4096 % 16) ::
      hexDigitChar (c.toNat / 256 % 16) :: hexDigitChar (c.toNat / 16 % 16) ::
      hexDigitChar (c.toNat % 16) :: tail) = some (c, tail)
    simp only [parseHex4Esc]
    rw [hexDigitVal?_hexDigitChar _ (by omega), hexDigitVal?_hexDigitChar _ (by omega),
      hexDigitVal?_hexDigitChar _ (by omega), hexDigitVal?_hexDigitChar _ (by omega)]
    have hval : ((c.toNat / 4096 % 16 * 16 + c.toNat / 256 % 16) * 16 +
        c.toNat / 16 % 16) * 16 + c.toNat % 16 = c.toNat := by omega
    simp [hval, Char.ofNat_toNat]
  · exact absurd h (by simp [escChar, h1, h2, h3, h4, h5, h6, h7, h8])

/-- The string parser inverts `JSON.stringify` escaping, for any
sufficient fuel. -/
theorem parseStringBodyF_escChars : ∀ (cs : List Char) (f : Nat) (rest : List Char),
    cs.length < f → parseStringBodyF f (escChars cs ++ '"' :: rest) = some (cs, rest) := by
  intro cs
  induction cs with
  | nil =>
    intro f rest hf
    match f, hf with
    | f + 1, _ => simp [parseStringBodyF]
  | cons c cs ih =>
    intro f rest hf
    match f, hf with
    | f + 1, hf =>
      have hlt : cs.length < f := by
        have : (c :: cs).length = cs.length + 1 := rfl
        omega
      have hassoc : escChars (c :: cs) ++ '"' :: rest =
          escChar c ++ (escChars cs ++ '"' :: rest) := by
        show (escChar c ++ escChars cs) ++ '"' :: rest = _
        rw [List.append_assoc]
      rw [hassoc]
      by_cases hplain : escChar c = [c]
      · rw [hplain]
        have h1 : ¬c = '"' := by
          intro hc; rw [hc] at hplain; simp [escChar] at hplain
        have h2 : ¬c = '\\' := by
          intro hc; rw [hc] at hplain; simp [escChar] at hplain
        have h8 : ¬c.toNat < 32 := by
          intro hc
          by_cases h3 : c = '\x08'
          · rw [h3] at hplain; simp [escChar] at hplain
          by_cases h4 : c = '\t'
          · rw [h4] at hplain; simp [escChar] at hplain
          by_cases h5 : c = '\n'
          · rw [h5] at hplain; simp [escChar] at hplain
          by_cases h6 : c = '\x0c'
          · rw [h6] at hplain; simp [escChar] at hplain
          by_cases h7 : c = '\r'
          · rw [h7] at hplain; simp [escChar] at hplain
          · simp [escChar, h1, h2, h3, h4, h5, h6, h7, hc] at hplain
        show parseStringBodyF (f + 1) (c :: (escChars cs ++ '"' :: rest)) = _
        simp only [parseStringBodyF]
        rw [if_neg h1, if_neg h2, if_neg h8, ih f rest hlt]
        rfl
      · have hbs : ∃ esc, escChar c = '\\' :: esc := by
          by_cases h1 : c = '"'
          · exact ⟨['"'], by simp [escChar, h1]⟩
          by_cases h2 : c = '\\'
          · exact ⟨['\\'], by simp [escChar, h1, h2]⟩
          by_cases h3 : c = '\x08'
          · exact ⟨['b'], by simp [escChar, h1, h2, h3]⟩
          by_cases h4 : c = '\t'
          · exact ⟨['t'], by simp [escChar, h1, h2, h3, h4]⟩
          by_cases h5 : c = '\n'
          · exact ⟨['n'], by simp [escChar, h1, h2, h3, h4, h5]⟩
          by_cases h6 : c = '\x0c'
          · exact ⟨['f'], by simp [escChar, h1, h2, h3, h4, h5, h6]⟩
          by_cases h7 : c = '\r'
          · exact ⟨['r'], by simp [escChar, h1, h2, h3, h4, h5, h6, h7]⟩
          by_cases h8 : c.toNat < 32
          · exact ⟨'u' :: hex4 c.toNat, by simp [escChar, h1, h2, h3, h4, h5, h6, h7, h8]⟩
          · exact absurd (by simp [escChar, h1, h2, h3, h4, h5, h6, h7, h8] : escChar c = [c])
              hplain
        obtain ⟨esc, hesc⟩ := hbs
        rw [hesc]
        have hassoc2 : ('\\' :: esc) ++ (escChars cs ++ '"' :: rest) =
            '\\' :: (esc ++ (escChars cs ++ '"' :: rest)) := rfl
        rw [hassoc2,
          parseStringBodyF_escStep f c _ _ (parseEscChar_escChar c _ esc hesc),
          ih f rest hlt]
        rfl

/-- The string parser inverts `JSON.stringify` escaping. -/
theorem parseStringBody_escChars (cs rest : List Char) :
    parseStringBody (escChars cs ++ '"' :: rest) = some (cs, rest) := by
  unfold parseStringBody
  apply parseStringBodyF_escChars
  have : cs.length ≤ (escChars cs).length := by
    induction cs with
    | nil => simp [escChars]
    | cons c cs ih =>
      show (c :: cs).length ≤ (escChar c ++ escChars cs).length
      rw [List.length_append]
      have hc : 1 ≤ (escChar c).length := by
        unfold escChar
        repeat' split
        all_goals simp
      simp only [List.length_cons]
      omega
  rw [List.length_append]
  simp only [List.length_cons]
  omega

/-- Splitting a run that wholly satisfies the predicate from a remainder
whose head does not. -/
theorem takeWhile_dropWhile_append (p : α → Bool) :
    ∀ (l1 l2 : List α), (∀ a ∈ l1, p a = true) →
      (∀ a, l2.head? = some a → p a = false) →
      (l1 ++ l2).takeWhile p = l1 ∧ (l1 ++ l2).dropWhile p = l2 := by
  intro l1
  induction l1 with
  | nil =>
    intro l2 _ h2
    cases l2 with
    | nil => exact ⟨rfl, rfl⟩
    | cons a l2 =>
      have := h2 a rfl
      simp [List.takeWhile, List.dropWhile, this]
  | cons a l1 ih =>
    intro l2 h1 h2
    have hpa : p a = true := h1 a (by simp)
    have hrec := ih l2 (fun b hb => h1 b (by simp [hb])) h2
    simp [List.takeWhile, List.dropWhile, hpa, hrec.1, hrec.2]

/-- Digit characters hold their value. -/
theorem decDigitChar_spec : ∀ n < 10, (decDigitChar n).isDigit = true ∧
    (decDigitChar n).toNat = 48 + n := by decide

/-- `digitsVal` over a snoc. -/
theorem digitsVal_append_single (ds : List Char) (d : Char) :
    digitsVal (ds ++ [d]) = digitsVal ds * 10 + (d.toNat - 48) := by
  unfold digitsVal
  rw [List.foldl_append]
  rfl

/-- With sufficient fuel, `natCharsF` renders a nonempty all-digit numeral
with the right value. -/
theorem natCharsF_spec : ∀ (f : Nat), ∀ n < f, natCharsF f n ≠ [] ∧
    (∀ c ∈ natCharsF f n, c.isDigit = true) ∧ digitsVal (natCharsF f n) = n := by
  intro f
  induction f with
  | zero => intro n hn; omega
  | succ f ih =>
    intro n hn
    by_cases h10 : n < 10
    · refine ⟨by simp [natCharsF, h10], ?_, ?_⟩
      · intro c hc
        rw [show natCharsF (f + 1) n = [decDigitChar n] from by simp [natCharsF, h10]] at hc
        simp at hc
        subst hc
        exact (decDigitChar_spec n h10).1
      · rw [show natCharsF (f + 1) n = [decDigitChar n] from by simp [natCharsF, h10]]
        show digitsVal ([] ++ [decDigitChar n]) = n
        rw [digitsVal_append_single, (decDigitChar_spec n h10).2]
        show 0 * 10 + (48 + n - 48) = n
        omega
    · have heq : natCharsF (f + 1) n = natCharsF f (n / 10) ++ [decDigitChar (n % 10)] := by
        simp [natCharsF, h10]
      have hrec := ih (n / 10) (by omega)
      refine ⟨by simp [heq], ?_, ?_⟩
      · intro c hc
        rw [heq] at hc
        rcases List.mem_append.mp hc with h | h
        · exact hrec.2.1 c h
        · simp at h
          subst h
          exact (decDigitChar_spec (n % 10) (by omega)).1
      · rw [heq, digitsVal_append_single, hrec.2.2,
          (decDigitChar_spec (n % 10) (by omega)).2]
        omega

/-- Unfolding equation for `parseNum` on a nonempty input. -/
theorem parseNum_cons (c : Char) (rest : List Char) :
    parseNum (c :: rest) =
      if c = '-' then (parseNumCore rest).map (fun p => (-(p.1 : Int), p.2))
      else (parseNumCore (c :: rest)).map (fun p => ((p.1 : Int), p.2)) := rfl

/-- The number parser inverts `intChars` whenever the remainder does not
begin with a digit. -/
theorem parseNum_intChars (n : Int) (rest : List Char)
    (hrest : ∀ c, rest.head? = some c → c.isDigit = false) :
    parseNum (intChars n ++ rest) = some (n, rest) := by
  by_cases hneg : n < 0
  · have hspec := natCharsF_spec ((-n).toNat + 1) (-n).toNat (by omega)
    have hsplit := takeWhile_dropWhile_append (fun c => c.isDigit)
      (natCharsF ((-n).toNat + 1) (-n).toNat) rest hspec.2.1 hrest
    have hi : intChars n ++ rest =
        '-' :: (natCharsF ((-n).toNat + 1) (-n).toNat ++ rest) := by
      simp [intChars, hneg]
    rw [hi, parseNum_cons, if_pos rfl]
    unfold parseNumCore
    simp only [hsplit.1, hsplit.2]
    rw [if_neg hspec.1]
    simp only [Option.map_some']
    rw [hspec.2.2]
    have : -((-n).toNat : Int) = n := by omega
    rw [this]
  · have hspec := natCharsF_spec (n.toNat + 1) n.toNat (by omega)
    have hsplit := takeWhile_dropWhile_append (fun c => c.isDigit)
      (natCharsF (n.toNat + 1) n.toNat) rest hspec.2.1 hrest
    have hi : intChars n ++ rest = natCharsF (n.toNat + 1) n.toNat ++ rest := by
      simp [intChars, hneg]
    rw [hi]
    obtain ⟨d, ds, hds⟩ : ∃ d ds, natCharsF (n.toNat + 1) n.toNat = d :: ds := by
      cases hnc : natCharsF (n.toNat + 1) n.toNat with
      | nil => exact absurd hnc hspec.1
      | cons d ds => exact ⟨d, ds, rfl⟩
    have hddig : d.isDigit = true := hspec.2.1 d (by rw [hds]; simp)
    have hdne : ¬d = '-' := by
      intro hc
      rw [hc] at hddig
      simp [Char.isDigit] at hddig
    rw [hds]
    show parseNum (d :: (ds ++ rest)) = some (n, rest)
    rw [parseNum_cons, if_neg hdne]
    unfold parseNumCore
    have hsplit2 := hsplit
    rw [hds] at hsplit2
    simp only [List.cons_append] at hsplit2
    simp only [hsplit2.1, hsplit2.2]
    rw [if_neg (by rw [← hds]; exact hspec.1)]
    simp only [Option.map_some']
    rw [show digitsVal (d :: ds) = digitsVal (natCharsF (n.toNat + 1) n.toNat) from by
      rw [hds]]
    rw [hspec.2.2]
    have : ((n.toNat : Nat) : Int) = n := by omega
    rw [this]

/-- Unfolding equation for `parseVal` on a nonempty input. -/
theorem parseVal_cons (c : Char) (rest : List Char) :
    parseVal (c :: rest) =
      if c = '"' then (fun p => (JVal.jstr ⟨p.1⟩, p.2)) <$> parseStringBody rest
      else (fun p => (JVal.jnum p.1, p.2)) <$> parseNum (c :: rest) := rfl

/-- `intChars` is nonempty and starts with a sign or a digit. -/
theorem intChars_head (n : Int) :
    ∃ d ds, intChars n = d :: ds ∧ (d = '-' ∨ d.isDigit = true) := by
  by_cases hneg : n < 0
  · exact ⟨'-', natCharsF ((-n).toNat + 1) (-n).toNat, by simp [intChars, hneg], Or.inl rfl⟩
  · have hspec := natCharsF_spec (n.toNat + 1) n.toNat (by omega)
    cases hnc : natCharsF (n.toNat + 1) n.toNat with
    | nil => exact absurd hnc hspec.1
    | cons d ds =>
      exact ⟨d, ds, by simp [intChars, hneg, hnc],
        Or.inr (hspec.2.1 d (by rw [hnc]; simp))⟩

/-- A digit is not JSON whitespace. -/
theorem isDigit_not_ws (c : Char) (h : c.isDigit = true) : isJsonWs c = false := by
  have h1 : ¬c = ' ' := by rintro rfl; exact absurd h (by decide)
  have h2 : ¬c = '\t' := by rintro rfl; exact absurd h (by decide)
  have h3 : ¬c = '\n' := by rintro rfl; exact absurd h (by decide)
  have h4 : ¬c = '\r' := by rintro rfl; exact absurd h (by decide)
  have h5 : ¬c = '\x0b' := by rintro rfl; exact absurd h (by decide)
  have h6 : ¬c = '\x0c' := by rintro rfl; exact absurd h (by decide)
  simp [isJsonWs, h1, h2, h3, h4, h5, h6]

/-- The value parser inverts `stringifyVal` whenever the remainder does
not begin with a digit. -/
theorem parseVal_stringifyVal (v : JVal) (rest : List Char)
    (hrest : ∀ c, rest.head? = some c → c.isDigit = false) :
    parseVal (stringifyVal v ++ rest) = some (v, rest) := by
  cases v with
  | jstr s =>
    have h : stringifyVal (JVal.jstr s) ++ rest =
        '"' :: (escChars s.data ++ ('"' :: rest)) := by
      show ('"' :: (escChars s.data ++ ['"'])) ++ rest = _
      simp [List.append_assoc]
    rw [h, parseVal_cons, if_pos rfl, parseStringBody_escChars]
    rfl
  | jnum n =>
    obtain ⟨d, ds, hds, hdc⟩ := intChars_head n
    have hd : ¬d = '"' := by
      rcases hdc with h | h
      · subst h; decide
      · intro hc
        rw [hc] at h
        exact absurd h (by decide)
    have hsplit : stringifyVal (JVal.jnum n) ++ rest = d :: (ds ++ rest) := by
      show intChars n ++ rest = _
      rw [hds]
      rfl
    rw [hsplit, parseVal_cons, if_neg hd,
      show d :: (ds ++ rest) = intChars n ++ rest from by rw [hds]; rfl,
      parseNum_intChars n rest hrest]
    rfl

/-- A key absent from an object reads as `undefined`. -/
theorem getKey?_eq_none_of_not_mem : ∀ (o : JObj) (k : String),
    k ∉ o.map Prod.fst → getKey? o k = none
  | [], _, _ => rfl
  | (k0, v0) :: os, k, h => by
    have h1 : ¬k0 = k := by
      intro hc
      exact h (by simp [← hc])
    show (if k0 = k then some v0 else getKey? os k) = none
    rw [if_neg h1, getKey?_eq_none_of_not_mem os k (by intro hc; exact h (by simp [hc]))]

/-- Setting an absent key appends the property. -/
theorem setKey_append : ∀ (o : JObj) (k : String) (v : JVal),
    k ∉ o.map Prod.fst → setKey o k v = o ++ [(k, v)]
  | [], _, _, _ => rfl
  | (k0, v0) :: os, k, v, h => by
    have h1 : ¬k0 = k := by
      intro hc
      exact h (by simp [← hc])
    show (if k0 = k then (k0, v) :: os else (k0, v0) :: setKey os k v) = _
    rw [if_neg h1, setKey_append os k v (by intro hc; exact h (by simp [hc]))]
    rfl

/-- Removing an absent key is a no-op. -/
theorem removeKey_of_not_mem : ∀ (o : JObj) (k : String),
    k ∉ o.map Prod.fst → removeKey o k = o
  | [], _, _ => rfl
  | (k0, v0) :: os, k, h => by
    have h1 : ¬k0 = k := by
      intro hc
      exact h (by simp [← hc])
    show (if k0 = k then removeKey os k else (k0, v0) :: removeKey os k) = _
    rw [if_neg h1, removeKey_of_not_mem os k (by intro hc; exact h (by simp [hc]))]

/-- Removing the key just appended recovers the original object. -/
theorem removeKey_append_single (o : JObj) (k : String) (v : JVal)
    (h : k ∉ o.map Prod.fst) : removeKey (o ++ [(k, v)]) k = o := by
  induction o with
  | nil => simp [removeKey]
  | cons m os ih =>
    obtain ⟨k0, v0⟩ := m
    have h1 : ¬k0 = k := by
      intro hc
      exact h (by simp [← hc])
    show (if k0 = k then removeKey (os ++ [(k, v)]) k
      else (k0, v0) :: removeKey (os ++ [(k, v)]) k) = _
    rw [if_neg h1, ih (by intro hc; exact h (by simp [hc]))]

/-- Reading the key just appended finds its value. -/
theorem getKey?_append_single (o : JObj) (k : String) (v : JVal)
    (h : k ∉ o.map Prod.fst) : getKey? (o ++ [(k, v)]) k = some v := by
  induction o with
  | nil => simp [getKey?]
  | cons m os ih =>
    obtain ⟨k0, v0⟩ := m
    have h1 : ¬k0 = k := by
      intro hc
      exact h (by simp [← hc])
    show (if k0 = k then some v0 else getKey? (os ++ [(k, v)]) k) = _
    rw [if_neg h1, ih (by intro hc; exact h (by simp [hc]))]

/-- Skipping whitespace at a non-whitespace head is the identity. -/
theorem skipWs_cons (c : Char) (l : List Char) (h : isJsonWs c = false) :
    skipWs (c :: l) = c :: l := by
  simp [skipWs, List.dropWhile, h]

/-- A serialized value never begins with whitespace. -/
theorem skipWs_stringifyVal (v : JVal) (tail : List Char) :
    skipWs (stringifyVal v ++ tail) = stringifyVal v ++ tail := by
  cases v with
  | jstr s => exact skipWs_cons '"' _ (by decide)
  | jnum n =>
    obtain ⟨d, ds, hds, hdc⟩ := intChars_head n
    have hd : isJsonWs d = false := by
      rcases hdc with h | h
      · subst h; decide
      · exact isDigit_not_ws d h
    show skipWs (intChars n ++ tail) = intChars n ++ tail
    rw [hds]
    exact skipWs_cons d _ hd

/-- Unfolding equation for `headIs` at a cons. -/
theorem headIs_cons (c x : Char) (xs : List Char) :
    headIs c (x :: xs) = if x = c then some xs else none := rfl

/-- Unfolding equation for `parseMembersF` with fuel left. -/
theorem parseMembersF_succ (f : Nat) (acc : JObj) (l : List Char) :
    parseMembersF (f + 1) acc l = (parseMemberKV l).bind fun kvr =>
      (memberEnd kvr.2.2).bind fun er =>
        if er.1 then parseMembersF f (setKey acc kvr.1 kvr.2.1) er.2
        else some (setKey acc kvr.1 kvr.2.1, er.2) := rfl

/-- `memberEnd` at a non-whitespace head. -/
theorem memberEnd_cons (c : Char) (r : List Char) (h : isJsonWs c = false) :
    memberEnd (c :: r) =
      if c = ',' then some (true, r) else if c = '}' then some (false, r) else none := by
  unfold memberEnd
  rw [skipWs_cons c r h]

/-- The member parser inverts one serialized `"key":value` member. -/
theorem parseMemberKV_stringify (k : String) (v : JVal) (tail : List Char)
    (hdig : ∀ c, tail.head? = some c → c.isDigit = false) :
    parseMemberKV ('"' :: (escChars k.data ++ ('"' :: ':' :: (stringifyVal v ++ tail)))) =
      some (k, v, tail) := by
  unfold parseMemberKV
  rw [skipWs_cons '"' _ (by decide), headIs_cons, if_pos rfl, Option.some_bind,
    parseStringBody_escChars, Option.some_bind, skipWs_cons ':' _ (by decide),
    headIs_cons, if_pos rfl, Option.some_bind, skipWs_stringifyVal,
    parseVal_stringifyVal v tail hdig, Option.map_some']

/-- The member-list parser inverts `stringifyMembers`, appending the
members after the accumulator, whenever all keys in sight are distinct. -/
theorem parseMembersF_stringify :
    ∀ (o : JObj) (f : Nat) (acc : JObj) (rest : List Char),
      o ≠ [] → o.length < f →
      (acc.map Prod.fst ++ o.map Prod.fst).Nodup →
      parseMembersF f acc (stringifyMembers o ++ '}' :: rest) = some (acc ++ o, rest) := by
  intro o
  induction o with
  | nil => intro f acc rest hne; exact absurd rfl hne
  | cons m os ih =>
    intro f acc rest _ hf hnd
    obtain ⟨k, v⟩ := m
    have hkacc : k ∉ acc.map Prod.fst := by
      rw [List.nodup_append] at hnd
      intro hc
      exact hnd.2.2 hc (by simp)
    match f, hf with
    | f + 1, hf =>
      cases os with
      | nil =>
        have hL : stringifyMembers [(k, v)] ++ '}' :: rest =
            '"' :: (escChars k.data ++ ('"' :: ':' :: (stringifyVal v ++ '}' :: rest))) := by
          show (quoteChars k ++ ':' :: stringifyVal v) ++ '}' :: rest = _
          simp [quoteChars, List.append_assoc]
        rw [hL, parseMembersF_succ,
          parseMemberKV_stringify k v ('}' :: rest) (by rintro c ⟨rfl⟩; decide),
          Option.some_bind]
        show (memberEnd ('}' :: rest)).bind _ = _
        rw [memberEnd_cons '}' rest (by decide), if_neg (by decide), if_pos rfl,
          Option.some_bind]
        show some (setKey acc k v, rest) = _
        rw [setKey_append acc k v hkacc]
      | cons m2 os2 =>
        have hL : stringifyMembers ((k, v) :: m2 :: os2) ++ '}' :: rest =
            '"' :: (escChars k.data ++ ('"' :: ':' :: (stringifyVal v ++
              (',' :: (stringifyMembers (m2 :: os2) ++ '}' :: rest))))) := by
          show (quoteChars k ++ ':' :: stringifyVal v ++
            ',' :: stringifyMembers (m2 :: os2)) ++ '}' :: rest = _
          simp [quoteChars, List.append_assoc]
        rw [hL, parseMembersF_succ,
          parseMemberKV_stringify k v _ (by rintro c ⟨rfl⟩; decide),
          Option.some_bind]
        show (memberEnd (',' :: (stringifyMembers (m2 :: os2) ++ '}' :: rest))).bind _ = _
        rw [memberEnd_cons ',' _ (by decide), if_pos rfl, Option.some_bind]
        show parseMembersF f (setKey acc k v) (stringifyMembers (m2 :: os2) ++ '}' :: rest) = _
        rw [setKey_append acc k v hkacc]
        have hnd2 : ((acc ++ [(k, v)]).map Prod.fst ++ (m2 :: os2).map Prod.fst).Nodup := by
          rw [List.map_append]
          rw [List.append_assoc]
          simpa using hnd
        rw [ih f (acc ++ [(k, v)]) rest (by simp) (by
          have : (m2 :: os2).length + 1 = ((k, v) :: m2 :: os2).length := rfl
          omega) hnd2]
        rw [List.append_assoc]
        rfl

/-- Each serialized member list is at least as long as the member count. -/
theorem stringifyMembers_length : ∀ (o : JObj), o.length ≤ (stringifyMembers o).length := by
  intro o
  induction o with
  | nil => simp [stringifyMembers]
  | cons m os ih =>
    obtain ⟨k, v⟩ := m
    cases os with
    | nil =>
      show 1 ≤ (quoteChars k ++ ':' :: stringifyVal v).length
      rw [List.length_append]
      simp only [List.length_cons]
      have h1 : 1 ≤ (quoteChars k).length := by simp [quoteChars]
      omega
    | cons m2 os2 =>
      show (m2 :: os2).length + 1 ≤
        (quoteChars k ++ ':' :: stringifyVal v ++ ',' :: stringifyMembers (m2 :: os2)).length
      rw [List.length_append, List.length_append]
      simp only [List.length_cons] at ih ⊢
      have h1 : 1 ≤ (quoteChars k).length := by simp [quoteChars]
      omega

/-- `JSON.parse` inverts `JSON.stringify` on objects with distinct keys. -/
theorem parseObj_stringifyObj (o : JObj) (hnd : (o.map Prod.fst).Nodup) :
    parseObj (stringifyObj o) = some o := by
  unfold parseObj
  show (match skipWs ('{' :: (stringifyMembers o ++ ['}'])) with
    | [] => none
    | c :: rest =>
      if c = '{' then
        match skipWs rest with
        | [] => none
        | c2 :: r2 =>
          if c2 = '}' then (if skipWs r2 = [] then some [] else none)
          else
            match parseMembersF ((stringifyObj o).data.length + 1) [] rest with
            | some (o2, r) => if skipWs r = [] then some o2 else none
            | none => none
      else none) = some o
  rw [skipWs_cons '{' _ (by decide)]
  cases o with
  | nil => rfl
  | cons m os =>
    obtain ⟨k, v⟩ := m
    have hT : ∃ T, stringifyMembers ((k, v) :: os) ++ ['}'] = '"' :: T := by
      cases os with
      | nil =>
        refine ⟨escChars k.data ++ ('"' :: ':' :: (stringifyVal v ++ ['}'])), ?_⟩
        show (quoteChars k ++ ':' :: stringifyVal v) ++ ['}'] = _
        simp [quoteChars, List.append_assoc]
      | cons m2 os2 =>
        refine ⟨escChars k.data ++ ('"' :: ':' :: (stringifyVal v ++
          (',' :: (stringifyMembers (m2 :: os2) ++ ['}'])))), ?_⟩
        show (quoteChars k ++ ':' :: stringifyVal v ++
          ',' :: stringifyMembers (m2 :: os2)) ++ ['}'] = _
        simp [quoteChars, List.append_assoc]
    obtain ⟨T, hT⟩ := hT
    show (match skipWs (stringifyMembers ((k, v) :: os) ++ ['}']) with
      | [] => none
      | c2 :: r2 =>
        if c2 = '}' then (if skipWs r2 = [] then some [] else none)
        else
          match parseMembersF ((stringifyObj ((k, v) :: os)).data.length + 1) []
              (stringifyMembers ((k, v) :: os) ++ ['}']) with
          | some (o2, r) => if skipWs r = [] then some o2 else none
          | none => none) = some ((k, v) :: os)
    nth_rewrite 1 [hT]
    rw [skipWs_cons '"' _ (by decide)]
    show (if ('"' : Char) = '}' then (if skipWs T = [] then some [] else none)
      else match parseMembersF ((stringifyObj ((k, v) :: os)).data.length + 1) []
          (stringifyMembers ((k, v) :: os) ++ ['}']) with
        | some (o2, r) => if skipWs r = [] then some o2 else none
        | none => none) = some ((k, v) :: os)
    rw [if_neg (by decide)]
    rw [parseMembersF_stringify ((k, v) :: os) _ [] [] (by simp) (by
      have h1 := stringifyMembers_length ((k, v) :: os)
      have h2 : (stringifyObj ((k, v) :: os)).data.length =
          (stringifyMembers ((k, v) :: os)).length + 2 := by
        show ('{' :: (stringifyMembers ((k, v) :: os) ++ ['}'])).length = _
        rw [List.length_cons, List.length_append]
        rfl
      simp only [List.length_cons] at h1 ⊢
      omega) (by simpa using hnd)]
    rfl

/-! ## Round-trip lemmas: signatures -/

/-- The flattened word bytes are bytes. -/
theorem foldr_wordBytes_lt : ∀ (ws : List Nat),
    ∀ b ∈ ws.foldr (fun w acc => wordBytesBE w ++ acc) [], b < 256 := by
  intro ws
  induction ws with
  | nil => intro b hb; simp at hb
  | cons w ws ih =>
    intro b hb
    rcases List.mem_append.mp hb with h | h
    · simp only [wordBytesBE, List.mem_cons, List.not_mem_nil, or_false] at h
      rcases h with h | h | h | h <;> (subst h; omega)
    · exact ih b h

/-- SHA-256 digests consist of bytes. -/
theorem sha256Bytes_lt (m : List Nat) : ∀ b ∈ sha256Bytes m, b < 256 :=
  foldr_wordBytes_lt _

/-- HMAC-SHA256 tags consist of bytes. -/
theorem hmacSha256_lt (k m : List Nat) : ∀ b ∈ hmacSha256 k m, b < 256 :=
  sha256Bytes_lt _

/-- The compression preserves the 8-word state length. -/
theorem sha256ProcessF_length : ∀ (f : Nat) (hs l : List Nat),
    hs.length = 8 → (sha256ProcessF f hs l).length = 8
  | 0, _, _, h => h
  | _ + 1, _, [], h => h
  | f + 1, hs, b :: rest, h =>
    sha256ProcessF_length f (sha256Compress hs ((b :: rest).take 64))
      ((b :: rest).drop 64) (by simp [sha256Compress])

/-- Flattening words to bytes multiplies the length by four. -/
theorem foldr_wordBytes_length : ∀ (ws : List Nat),
    (ws.foldr (fun w acc => wordBytesBE w ++ acc) []).length = 4 * ws.length := by
  intro ws
  induction ws with
  | nil => rfl
  | cons w ws ih =>
    show (wordBytesBE w ++ ws.foldr (fun w acc => wordBytesBE w ++ acc) []).length = _
    rw [List.length_append, ih]
    show 4 + 4 * ws.length = 4 * (ws.length + 1)
    omega

/-- A SHA-256 digest has 32 bytes. -/
theorem sha256Bytes_length (m : List Nat) : (sha256Bytes m).length = 32 := by
  unfold sha256Bytes
  rw [foldr_wordBytes_length,
    sha256ProcessF_length (sha256Pad m).length shaH0 (sha256Pad m) rfl]

/-- `parseInt(·, 16)` on the two padded hex digits of a byte recovers the
byte. -/
theorem parseHexPairJS_byteToHex (b : Nat) (hb : b < 256) :
    parseHexPairJS (byteToHex b) = b := by
  show parseHexPairJS [hexDigitChar (b / 16 % 16), hexDigitChar (b % 16)] = b
  simp only [parseHexPairJS, takeDigits,
    hexDigitVal?_hexDigitChar _ (show b / 16 % 16 < 16 by omega),
    hexDigitVal?_hexDigitChar _ (show b % 16 < 16 by omega),
    Option.getD_none, Option.getD_some]
  omega

/-- A hex-encoded byte sequence parses back through the
`match(/.{1,2}/g)` / `parseInt(·, 16)` pipeline. -/
theorem hexPairs_roundtrip : ∀ (bs : List Nat), (∀ b ∈ bs, b < 256) →
    (chunkPairs (bytesToHex bs).data).map parseHexPairJS = bs := by
  intro bs
  induction bs with
  | nil => intro _; rfl
  | cons b bs ih =>
    intro h
    have hb : b < 256 := h b (by simp)
    have hdata : (bytesToHex (b :: bs)).data =
        hexDigitChar (b / 16 % 16) :: hexDigitChar (b % 16) :: (bytesToHex bs).data := rfl
    rw [hdata]
    show parseHexPairJS [hexDigitChar (b / 16 % 16), hexDigitChar (b % 16)] ::
      (chunkPairs (bytesToHex bs).data).map parseHexPairJS = b :: bs
    rw [ih (fun x hx => h x (by simp [hx])),
      show [hexDigitChar (b / 16 % 16), hexDigitChar (b % 16)] = byteToHex b from rfl,
      parseHexPairJS_byteToHex b hb]

/-- Hex text of a nonempty byte sequence is nonempty. -/
theorem bytesToHex_ne_empty (bs : List Nat) (h : bs ≠ []) : bytesToHex bs ≠ "" := by
  cases bs with
  | nil => exact absurd rfl h
  | cons b bs =>
    intro hc
    have : (bytesToHex (b :: bs)).data = ("" : String).data := by rw [hc]
    simp only [bytesToHex] at this
    exact absurd this (by simp [byteToHex])

/-- An HMAC tag is nonempty. -/
theorem hmacSha256_ne_empty (k m : List Nat) : hmacSha256 k m ≠ [] := by
  intro hc
  have := sha256Bytes_length ((List.map (fun b => b ^^^ 92)
    (((if k.length > 64 then sha256Bytes k else k) ++
      List.replicate (64 - (if k.length > 64 then sha256Bytes k else k).length) 0))) ++
    sha256Bytes ((List.map (fun b => b ^^^ 54)
      (((if k.length > 64 then sha256Bytes k else k) ++
        List.replicate (64 - (if k.length > 64 then sha256Bytes k else k).length) 0))) ++ m))
  rw [show hmacSha256 k m = sha256Bytes _ from rfl] at hc
  rw [hc] at this
  simp at this

/-- `verifyState` of a `signState` output: the signature always checks out
and the result is governed solely by the expiry test. -/
theorem verifyState_signState (st : JObj) (secret : String) (e : String) (now : Int)
    (hnd : (st.map Prod.fst).Nodup)
    (hsig : "sig" ∉ st.map Prod.fst)
    (he : signState st secret = some e) :
    verifyState e secret now =
      if tsExpired st now then Except.error VerifyErr.expired else Except.ok st := by
  have hhexlt := hmacSha256_lt (strBytes secret) (strBytes (stringifyObj st))
  have he2 : btoaM (stringifyObj (setKey st "sig" (JVal.jstr
      (bytesToHex (hmacSha256 (strBytes secret) (strBytes (stringifyObj st))))))) =
      some e := he
  have hatob := atobM_btoaM _ e he2
  have hobj2 : setKey st "sig" (JVal.jstr
      (bytesToHex (hmacSha256 (strBytes secret) (strBytes (stringifyObj st))))) =
      st ++ [("sig", JVal.jstr
        (bytesToHex (hmacSha256 (strBytes secret) (strBytes (stringifyObj st)))))] :=
    setKey_append st _ _ hsig
  rw [hobj2] at hatob
  have hnd2 : ((st ++ [("sig", JVal.jstr
      (bytesToHex (hmacSha256 (strBytes secret) (strBytes (stringifyObj st)))))]).map
        Prod.fst).Nodup := by
    rw [List.map_append, List.nodup_append]
    refine ⟨hnd, by simp, ?_⟩
    intro a ha hb
    simp at hb
    subst hb
    exact hsig ha
  have hparse := parseObj_stringifyObj _ hnd2
  unfold verifyState
  rw [hatob]
  simp only [hparse]
  simp only [getKey?_append_single st "sig" _ hsig, removeKey_append_single st "sig" _ hsig]
  rw [if_neg (bytesToHex_ne_empty _ (hmacSha256_ne_empty _ _))]
  rw [hexPairs_roundtrip _ hhexlt]
  rw [if_pos rfl]

/-! ## Claim theorems: signing -/

set_option maxRecDepth 40000 in
/-- C4 counterexample: signing the concrete state `demoObj` (issued at
`ts = 0`) with secret `topsecret` and verifying the untampered output at
time 600001 ms yields `StateExpired`, not the state back — the round-trip
in the claim fails without a freshness assumption. -/
theorem c4_roundtrip_counterexample :
    signState demoObj "topsecret" = some demoSigned ∧
      verifyState demoSigned "topsecret" 600001 = Except.error VerifyErr.expired := by
  constructor
  · decide
  · decide

set_option maxRecDepth 40000 in
/-- C4 (amended): for every state object (distinct keys, no `sig` field of
its own, latin-1 serialization) verified within the expiry window,
`verify(sign(state))` recovers the state; but byte tampering is not always
detected: the concrete payload `demoTampered`, which differs from the
signed `demoSigned` in exactly one byte (a signature hex digit's case),
still verifies and returns the original state. -/
theorem c4_amended_roundtrip :
    (∀ (st : JObj) (secret e : String) (now : Int),
      (st.map Prod.fst).Nodup → "sig" ∉ st.map Prod.fst →
      signState st secret = some e → tsExpired st now = false →
      verifyState e secret now = Except.ok st) ∧
    (demoTampered ≠ demoSigned ∧ demoTampered.length = demoSigned.length ∧
      (demoSigned.data.zip demoTampered.data).countP (fun p => decide (p.1 ≠ p.2)) = 1 ∧
      verifyState demoTampered "topsecret" 1000 = Except.ok demoObj) := by
  constructor
  · intro st secret e now hnd hsig he hts
    rw [verifyState_signState st secret e now hnd hsig he, hts]
    simp
  · exact ⟨by decide, by decide, by decide, by decide⟩

set_option maxRecDepth 40000 in
/-- Witness for C4's amended round-trip at `demoObj`, secret `topsecret`,
time 1000 ms. -/
theorem c4_amended_roundtrip_witness :
    signState demoObj "topsecret" = some demoSigned ∧
      tsExpired demoObj 1000 = false ∧
      verifyState demoSigned "topsecret" 1000 = Except.ok demoObj :=
  ⟨by decide, by decide,
    c4_amended_roundtrip.1 demoObj "topsecret" demoSigned 1000 (by decide) (by decide)
      (by decide) (by decide)⟩

/-- C5: for every signed state carrying a numeric `ts`, verification more
than 600 000 ms after `ts` fails with `StateExpired` (so in particular at
`ts + 601 000 ms`), and verification at `ts + 599 000 ms` succeeds,
returning the state. -/
theorem c5_expiry_window (st : JObj) (secret e : String) (t now : Int)
    (hnd : (st.map Prod.fst).Nodup)
    (hsig : "sig" ∉ st.map Prod.fst)
    (hts : getKey? st "ts" = some (JVal.jnum t))
    (he : signState st secret = some e) :
    (now - t > 600000 → verifyState e secret now = Except.error VerifyErr.expired) ∧
      verifyState e secret (t + 601000) = Except.error VerifyErr.expired ∧
      verifyState e secret (t + 599000) = Except.ok st := by
  have hexp : ∀ n : Int, tsExpired st n = decide (n - t > 600000) := by
    intro n
    unfold tsExpired
    rw [hts]
  refine ⟨?_, ?_, ?_⟩
  · intro hgt
    rw [verifyState_signState st secret e now hnd hsig he, hexp now]
    simp [hgt]
  · rw [verifyState_signState st secret e _ hnd hsig he, hexp]
    have hgt : t + 601000 - t > 600000 := by omega
    simp [hgt]
  · rw [verifyState_signState st secret e _ hnd hsig he, hexp]
    have hle : ¬t + 599000 - t > 600000 := by omega
    simp [hle]

set_option maxRecDepth 40000 in
/-- Witness for C5 at `demoObj` (`ts = 0`), secret `topsecret`: expired at
601 000 ms, alive at 599 000 ms. -/
theorem c5_expiry_window_witness :
    getKey? demoObj "ts" = some (JVal.jnum 0) ∧
      verifyState demoSigned "topsecret" 601000 = Except.error VerifyErr.expired ∧
      verifyState demoSigned "topsecret" 599000 = Except.ok demoObj :=
  ⟨by decide,
    (c5_expiry_window demoObj "topsecret" demoSigned 0 0 (by decide) (by decide)
      (by decide) (by decide)).2.1,
    (c5_expiry_window demoObj "topsecret" demoSigned 0 0 (by decide) (by decide)
      (by decide) (by decide)).2.2⟩

set_option maxRecDepth 40000 in
/-- C2: the callback handler performs no signature verification: presented
with a fresh state whose carried signature (`"00"`) matches no HMAC, it
proceeds through the token exchange all the way to the client redirect —
while the repository's own `verifyState` (which the callback never calls)
rejects that very payload with an invalid-signature error. -/
theorem c2_no_signature_verification :
    githubOauthCallback (some "authcode") (some c2state) 1000 (some "tok") "owner" "owner" =
      CallbackResult.redirect "https://elk.zone/cb?code=tok" ∧
    verifyState c2state "anysecret" 1000 = Except.error VerifyErr.invalidSignature := by
  constructor
  · decide
  · decide

/-- C6: whenever the provider-reported login differs (string inequality)
from the configured owner login, the callback stops with its 403 response
— no redirect is issued — and the status-creation endpoint stops with its
403 response — no content-store commit is performed. -/
theorem c6_identity_gate (login owner : String) (hne : login ≠ owner)
    (code es : Option String) (now : Int) (tok : String) (st : JObj) (c0 es0 : String)
    (hcode : truthy code = some c0) (hes : truthy es = some es0)
    (hparse : (atobM es0).bind parseObj = some st)
    (hfresh : tsExpired st now = false) :
    githubOauthCallback code es now (some tok) login owner = CallbackResult.notOwner ∧
      callbackStatus (githubOauthCallback code es now (some tok) login owner) = 403 ∧
      redirectLocation? (githubOauthCallback code es now (some tok) login owner) = none ∧
      (∀ (bs bv : Option String) (bsen : Bool) (di dp ni : String),
        postStatuses (some ("Bearer " ++ tok)) login owner bs bv bsen di dp ni =
          PostStatusResult.forbidden ∧
        postStatusCode (postStatuses (some ("Bearer " ++ tok)) login owner bs bv bsen
          di dp ni) = 403 ∧
        commitOf? (postStatuses (some ("Bearer " ++ tok)) login owner bs bv bsen
          di dp ni) = none) := by
  have hcb : githubOauthCallback code es now (some tok) login owner =
      CallbackResult.notOwner := by
    unfold githubOauthCallback
    rw [hcode, hes]
    show (match (atobM es0).bind parseObj with
      | none => CallbackResult.oauthError
      | some state =>
        if tsExpired state now then CallbackResult.stateExpired
        else
          if login ≠ owner then CallbackResult.notOwner
          else
            match getKey? state "clientRedirect" with
            | some (JVal.jstr clientRedirect) =>
              CallbackResult.redirect (clientRedirect ++
                (if hasChar clientRedirect '?' then "&" else "?") ++ "code=" ++
                encodeURIComponent tok)
            | _ => CallbackResult.oauthError) = CallbackResult.notOwner
    rw [hparse]
    show (if tsExpired st now then CallbackResult.stateExpired
      else
        if login ≠ owner then CallbackResult.notOwner
        else
          match getKey? st "clientRedirect" with
          | some (JVal.jstr clientRedirect) =>
            CallbackResult.redirect (clientRedirect ++
              (if hasChar clientRedirect '?' then "&" else "?") ++ "code=" ++
              encodeURIComponent tok)
          | _ => CallbackResult.oauthError) = CallbackResult.notOwner
    rw [hfresh]
    show (if login ≠ owner then CallbackResult.notOwner
      else
        match getKey? st "clientRedirect" with
        | some (JVal.jstr clientRedirect) =>
          CallbackResult.redirect (clientRedirect ++
            (if hasChar clientRedirect '?' then "&" else "?") ++ "code=" ++
            encodeURIComponent tok)
        | _ => CallbackResult.oauthError) = CallbackResult.notOwner
    rw [if_pos hne]
  have hps : ∀ (bs bv : Option String) (bsen : Bool) (di dp ni : String),
      postStatuses (some ("Bearer " ++ tok)) login owner bs bv bsen di dp ni =
        PostStatusResult.forbidden := by
    intro bs bv bsen di dp ni
    unfold postStatuses
    have hsw : strStartsWith ("Bearer " ++ tok) "Bearer " = true := by
      simp [strStartsWith, String.data_append, List.take_left]
    show (if ¬ strStartsWith ("Bearer " ++ tok) "Bearer " then PostStatusResult.unauthorized
      else if login ≠ owner then PostStatusResult.forbidden else _) =
        PostStatusResult.forbidden
    rw [hsw]
    show (if ¬ True then PostStatusResult.unauthorized
      else if login ≠ owner then PostStatusResult.forbidden else _) =
        PostStatusResult.forbidden
    rw [if_neg (by simp), if_pos hne]
  exact ⟨hcb, by rw [hcb]; rfl, by rw [hcb]; rfl,
    fun bs bv bsen di dp ni =>
      ⟨hps bs bv bsen di dp ni, by rw [hps bs bv bsen di dp ni]; rfl,
        by rw [hps bs bv bsen di dp ni]; rfl⟩⟩

/-- Witness for C6: login `mallory` against owner `owner`, with the
bridge's own unsigned state for the elk.zone redirect. -/
theorem c6_identity_gate_witness :
    ("mallory" : String) ≠ "owner" ∧
      githubOauthCallback (some "c") (some demoUnsignedState) 0 (some "tok")
        "mallory" "owner" = CallbackResult.notOwner ∧
      postStatuses (some ("Bearer " ++ "tok")) "mallory" "owner" (some "hello") none false
        "2026-01-01T00:00:00.000Z" "2026-01-01" "1767225600000" =
        PostStatusResult.forbidden := by
  have h := c6_identity_gate "mallory" "owner" (by decide) (some "c")
    (some demoUnsignedState) 0 "tok" demoObj "c" demoUnsignedState rfl (by decide)
    (by decide) (by decide)
  exact ⟨by decide, h.1,
    (h.2.2.2 (some "hello") none false "2026-01-01T00:00:00.000Z" "2026-01-01"
      "1767225600000").1⟩

/-- C8: the authorize endpoint of the auto-approve worker, queried with
`redirect_uri=https://elk.zone/cb`, `response_type=code` and `client_id=x`,
responds 302 with a `Location` that begins `https://elk.zone/cb?code=`. -/
theorem c8_authorize_scenario :
    authorizeStatus (oauthAuthorize (some "x") (some "https://elk.zone/cb")
      (some "code")) = 302 ∧
    ∃ rest, oauthAuthorize (some "x") (some "https://elk.zone/cb") (some "code") =
      AuthorizeResult.redirect ("https://elk.zone/cb?code=" ++ rest) := by
  have h : oauthAuthorize (some "x") (some "https://elk.zone/cb") (some "code") =
      AuthorizeResult.redirect ("https://elk.zone/cb?code=" ++
        strTakeJS (bytesToHex (sha256Bytes (strBytes ("x" ++ ":auth_code")))) 32) := by
    unfold oauthAuthorize
    show (if (some "code" : Option String) ≠ some "code" then AuthorizeResult.invalidRequest
      else AuthorizeResult.redirect ("https://elk.zone/cb" ++
        (if hasChar "https://elk.zone/cb" '?' then "&" else "?") ++ "code=" ++
        strTakeJS (bytesToHex (sha256Bytes (strBytes ("x" ++ ":auth_code")))) 32)) = _
    rw [if_neg (by simp), if_neg (by decide)]
    have happ : ∀ X : String, "https://elk.zone/cb" ++ "?" ++ "code=" ++ X =
        "https://elk.zone/cb?code=" ++ X := by
      intro X
      exact congrArg (fun y => y ++ X) (by decide)
    rw [happ]
  exact ⟨by rw [h]; rfl, ⟨_, h⟩⟩

/-- Characters of a percent-escape expansion: `%` or an uppercase hex
digit. -/
theorem pct_foldr_mem (bs : List Nat) :
    ∀ c ∈ bs.foldr (fun b a2 => pctByte b ++ a2) [],
      c = '%' ∨ ∃ v < 16, c = hexDigitCharUpper v := by
  induction bs with
  | nil => intro c hc; simp at hc
  | cons b bs ih =>
    intro c hc
    rcases List.mem_append.mp hc with h | h
    · simp only [pctByte, List.mem_cons, List.not_mem_nil, or_false] at h
      rcases h with h | h | h
      · exact Or.inl h
      · exact Or.inr ⟨b / 16 % 16, by omega, h⟩
      · exact Or.inr ⟨b % 16, by omega, h⟩
    · exact ih c h

/-- `encodeURIComponent` output never contains a URI delimiter. -/
theorem encodeURIComponent_no_delims (s : String) :
    ∀ c ∈ (encodeURIComponent s).data, ¬(c = '?' ∨ c = '&' ∨ c = '=' ∨ c = '#') := by
  show ∀ c ∈ s.data.foldr _ [], _
  induction s.data with
  | nil => intro c hc; simp at hc
  | cons c0 l ih =>
    intro c hc
    rcases List.mem_append.mp hc with h | h
    · by_cases hu : isUriUnreserved c0
      · rw [if_pos hu] at h
        simp at h
        subst h
        intro hdel
        rcases hdel with h | h | h | h <;> (subst h; exact absurd hu (by decide))
      · rw [if_neg hu] at h
        rcases pct_foldr_mem _ c h with h | ⟨v, hv, h⟩
        · subst h; decide
        · subst h
          intro hdel
          have : ∀ w < 16, ¬(hexDigitCharUpper w = '?' ∨ hexDigitCharUpper w = '&' ∨
              hexDigitCharUpper w = '=' ∨ hexDigitCharUpper w = '#') := by decide
          exact this v hv hdel
    · exact ih c h

/-- Characters of a lowercase hex rendering are hex digits. -/
theorem bytesToHex_mem (bs : List Nat) :
    ∀ c ∈ (bytesToHex bs).data, ∃ v < 16, c = hexDigitChar v := by
  show ∀ c ∈ bs.foldr (fun b acc => byteToHex b ++ acc) [], _
  induction bs with
  | nil => intro c hc; simp at hc
  | cons b bs ih =>
    intro c hc
    rcases List.mem_append.mp hc with h | h
    · simp only [byteToHex, List.mem_cons, List.not_mem_nil, or_false] at h
      rcases h with h | h
      · exact ⟨b / 16 % 16, by omega, h⟩
      · exact ⟨b % 16, by omega, h⟩
    · exact ih c h

/-- The one-character payload needles never contain `?`. -/
theorem count_qm_zero_of_no_qm (l : List Char) (h : '?' ∉ l) : l.count '?' = 0 :=
  List.count_eq_zero.mpr h

/-- The `?`-count of a redirect location built with the worker's separator
logic: one more than the redirect URI's count when the URI has none,
unchanged otherwise — `max (count, 1)` — provided the payload appended
after `code=` contains no `?`. -/
theorem location_qm_count (ruri payload : String) (hp : '?' ∉ payload.data) :
    ((ruri ++ (if hasChar ruri '?' then "&" else "?") ++ "code=" ++ payload).data.count
      '?') = max (ruri.data.count '?') 1 := by
  have hpc : payload.data.count '?' = 0 := count_qm_zero_of_no_qm _ hp
  by_cases h : hasChar ruri '?' = true
  · rw [if_pos h]
    have hmem : '?' ∈ ruri.data := by simpa [hasChar] using h
    have hpos : 0 < ruri.data.count '?' := List.count_pos_iff.mpr hmem
    rw [String.data_append, String.data_append, String.data_append,
      List.count_append, List.count_append, List.count_append, hpc]
    have h1 : (("&" : String).data.count '?') = 0 := by decide
    have h2 : (("code=" : String).data.count '?') = 0 := by decide
    rw [h1, h2]
    omega
  · rw [if_neg h]
    have hnot : '?' ∉ ruri.data := by simpa [hasChar] using h
    have h0 : ruri.data.count '?' = 0 := count_qm_zero_of_no_qm _ hnot
    rw [String.data_append, String.data_append, String.data_append,
      List.count_append, List.count_append, List.count_append, hpc, h0]
    have h1 : (("?" : String).data.count '?') = 1 := by decide
    have h2 : (("code=" : String).data.count '?') = 0 := by decide
    rw [h1, h2]
    omega

/-- C10 counterexample: for the client redirect URI `https://a/cb?x=1?y`
the callback's `Location` contains two `?` characters, not exactly one. -/
theorem c10_two_qm_counterexample :
    redirectLocation? (githubOauthCallback (some "c") (some c10state) 0 (some "tok")
      "o" "o") = some "https://a/cb?x=1?y&code=tok" ∧
    ("https://a/cb?x=1?y&code=tok".data.count '?') ≠ 1 := by
  constructor
  · decide
  · decide

/-- C10 (amended): both redirects append the code parameter with `&`
exactly when the redirect URI already contains `?`; the resulting
`Location` has `max(count of ? in the URI, 1)` question marks (so exactly
one whenever the URI has at most one), and ends with `code=` followed by a
payload free of URI delimiters (`encodeURIComponent` output for the
callback, 32 hex characters for the auto-approve authorize). -/
theorem c10_amended_separator (ruri tok cid : String) (st : JObj)
    (code es : Option String) (now : Int) (c0 es0 : String)
    (hcode : truthy code = some c0) (hes : truthy es = some es0)
    (hparse : (atobM es0).bind parseObj = some st)
    (hfresh : tsExpired st now = false)
    (hcr : getKey? st "clientRedirect" = some (JVal.jstr ruri))
    (hcid : cid ≠ "") (hruri : ruri ≠ "") :
    (∀ owner : String,
      githubOauthCallback code es now (some tok) owner owner =
        CallbackResult.redirect (ruri ++ (if hasChar ruri '?' then "&" else "?") ++
          "code=" ++ encodeURIComponent tok)) ∧
    ((ruri ++ (if hasChar ruri '?' then "&" else "?") ++ "code=" ++
      encodeURIComponent tok).data.count '?' = max (ruri.data.count '?') 1) ∧
    (∀ c ∈ (encodeURIComponent tok).data, ¬(c = '?' ∨ c = '&' ∨ c = '=' ∨ c = '#')) ∧
    (oauthAuthorize (some cid) (some ruri) (some "code") =
      AuthorizeResult.redirect (ruri ++ (if hasChar ruri '?' then "&" else "?") ++
        "code=" ++ strTakeJS (bytesToHex (sha256Bytes (strBytes (cid ++ ":auth_code")))) 32)) ∧
    ((ruri ++ (if hasChar ruri '?' then "&" else "?") ++ "code=" ++
      strTakeJS (bytesToHex (sha256Bytes (strBytes (cid ++ ":auth_code")))) 32).data.count
      '?' = max (ruri.data.count '?') 1) := by
  refine ⟨?_, ?_, ?_, ?_, ?_⟩
  · intro owner
    unfold githubOauthCallback
    rw [hcode, hes]
    show (match (atobM es0).bind parseObj with
      | none => CallbackResult.oauthError
      | some state =>
        if tsExpired state now then CallbackResult.stateExpired
        else
          if owner ≠ owner then CallbackResult.notOwner
          else
            match getKey? state "clientRedirect" with
            | some (JVal.jstr clientRedirect) =>
              CallbackResult.redirect (clientRedirect ++
                (if hasChar clientRedirect '?' then "&" else "?") ++ "code=" ++
                encodeURIComponent tok)
            | _ => CallbackResult.oauthError) = _
    rw [hparse]
    show (if tsExpired st now then CallbackResult.stateExpired
      else
        if owner ≠ owner then CallbackResult.notOwner
        else
          match getKey? st "clientRedirect" with
          | some (JVal.jstr clientRedirect) =>
            CallbackResult.redirect (clientRedirect ++
              (if hasChar clientRedirect '?' then "&" else "?") ++ "code=" ++
              encodeURIComponent tok)
          | _ => CallbackResult.oauthError) = _
    rw [hfresh]
    show (if owner ≠ owner then CallbackResult.notOwner
      else
        match getKey? st "clientRedirect" with
        | some (JVal.jstr clientRedirect) =>
          CallbackResult.redirect (clientRedirect ++
            (if hasChar clientRedirect '?' then "&" else "?") ++ "code=" ++
            encodeURIComponent tok)
        | _ => CallbackResult.oauthError) = _
    rw [if_neg (by simp), hcr]
  · exact location_qm_count ruri (encodeURIComponent tok)
      (fun hmem => (encodeURIComponent_no_delims tok '?' hmem) (Or.inl rfl))
  · exact encodeURIComponent_no_delims tok
  · unfold oauthAuthorize
    have htc : truthy (some cid) = some cid := by simp [truthy, hcid]
    have htr : truthy (some ruri) = some ruri := by simp [truthy, hruri]
    rw [htc, htr]
    show (if (some "code" : Option String) ≠ some "code" then AuthorizeResult.invalidRequest
      else AuthorizeResult.redirect (ruri ++ (if hasChar ruri '?' then "&" else "?") ++
        "code=" ++ strTakeJS (bytesToHex (sha256Bytes (strBytes (cid ++ ":auth_code")))) 32))
      = _
    rw [if_neg (by simp)]
  · refine location_qm_count ruri _ (fun hmem => ?_)
    have hsub : '?' ∈ (bytesToHex (sha256Bytes (strBytes (cid ++ ":auth_code")))).data :=
      List.mem_of_mem_take hmem
    obtain ⟨v, hv, hc⟩ := bytesToHex_mem _ _ hsub
    have : ∀ w < 16, ¬hexDigitChar w = '?' := by decide
    exact this v hv hc.symm

/-- Witness for C10's amended theorem at the elk.zone redirect URI (no
existing query string) with token `tok` and client id `x`. -/
theorem c10_amended_separator_witness :
    githubOauthCallback (some "c") (some demoUnsignedState) 0 (some "tok") "o" "o" =
      CallbackResult.redirect ("https://elk.zone/cb" ++
        (if hasChar "https://elk.zone/cb" '?' then "&" else "?") ++ "code=" ++
        encodeURIComponent "tok") ∧
    (("https://elk.zone/cb" ++ (if hasChar "https://elk.zone/cb" '?' then "&" else "?") ++
      "code=" ++ encodeURIComponent "tok").data.count '?' =
      max ("https://elk.zone/cb".data.count '?') 1) := by
  have h := c10_amended_separator "https://elk.zone/cb" "tok" "x" demoObj (some "c")
    (some demoUnsignedState) 0 "c" demoUnsignedState rfl (by decide) (by decide)
    (by decide) (by decide) (by decide) (by decide)
  exact ⟨h.1 "o", h.2.1⟩

/-- C9: serving any sequence of timeline requests leaves the embedded
status index unchanged, and a request issued after the sequence serves the
same page as the identical request issued before it — the handler only
ever reverses fresh slices, never the backing array. -/
theorem c9_handler_never_mutates (h : Heap) (ps : List PageParams) (q : PageParams) :
    runRequests h ps = h ∧
      (handleAccountStatusesHeap (runRequests h ps) q).2 =
        (handleAccountStatusesHeap h q).2 := by
  have hrun : ∀ (h0 : Heap), runRequests h0 ps = h0 := by
    intro h0
    induction ps generalizing h0 with
    | nil => rfl
    | cons p ps ih =>
      show runRequests (handleAccountStatusesHeap h0 p).1 ps = h0
      rw [handleAccountStatusesHeap_eq]
      exact ih h0
  exact ⟨hrun h, by rw [hrun h]⟩

end Octodon
